import Mathlib

/-!
# SilkUI.FreeType: font extraction pipeline

A shallow embedding of `SilkUI.FreeType.h` (class `FreeTypeInterface`) and the
properties of its font-asset extraction.

Conventions of the embedding.

* The FreeType engine is external.  What the code reads from it is a parameter:
  an `Engine` opens faces, a `Face` carries the fields and the answers of the
  calls the code makes on an `FT_Face`.
* C++/CLI is compiled by MSVC only, where `long` and `int` are both 32 bits wide.
  `FT_Long`, `FT_Pos`, `FT_Int`, `FT_Short` values stored into `int`/`Int32`
  fields and `FT_ULong` values stored into `UInt32` keep their value and are
  plain `Int`/`Nat` here.  The conversion `unsigned int -> Int32` of the bitmap
  dimensions and the `Int32` product `Width * Height` wrap around modulo `2^32`,
  as the compiled multiplication does.
* Managed exceptions are results of type `Err`.  So is the read of an `int` that
  was never assigned: a run that meets it has no result.
* By-reference parameters (`FontInfo&`) are returned next to the result.
* Every function that opens faces also returns the list of open/close events
  it performed on the engine, whatever its result.
* `Console::WriteLine` output is not part of the model; managed references are
  never null.
-/

namespace SilkUI.FreeType

/-! ## Data model (lines 26-57) -/

/-- One rasterised glyph: `value struct Glyph`. -/
structure Glyph where
  CharCode : Nat
  Width : Int
  Height : Int
  BearingX : Int
  BearingY : Int
  Advance : Int
  ImageData : List Nat
deriving DecidableEq, Repr

/-- One face of a font: `value struct FontFace`.  A null `Glyphs` reference (the
default value of the struct) is the empty list. -/
structure FontFace where
  FaceIndex : Int
  Bold : Bool
  Italic : Bool
  Glyphs : List Glyph
deriving DecidableEq, Repr

/-- The returned asset: `value struct Font`. -/
structure Font where
  Family : String
  Size : Int
  Faces : List FontFace
deriving DecidableEq, Repr

/-- Native `struct FontInfo`.  The two `int` members have no initialiser:
`none` is the indeterminate value of a member that was never assigned. -/
structure FontInfo where
  Family : String
  NumFaces : Option Int
  LineHeight : Option Int
deriving DecidableEq, Repr

/-- Outcomes other than a normal return. -/
inductive Err where
  /-- `System::Exception` thrown when the engine rejects the open (lines 102, 121). -/
  | loadFailed
  /-- `IndexOutOfRangeException` of a managed array access. -/
  | indexOutOfRange
  /-- `OverflowException` of `gcnew array` with a negative length. -/
  | overflow
  /-- Read of an `int` that was never assigned. -/
  | undefined
  /-- The loop did not finish within the given number of iterations. -/
  | outOfFuel
deriving DecidableEq, Repr

/-! ## The engine as seen by the code -/

/-- Contents of `face->glyph` after a successful `FT_Load_Char(..., FT_LOAD_RENDER)`.
`width` and `rows` are `unsigned int`; `buffer` is the memory behind
`bitmap.buffer`, read by offset. -/
structure GlyphSlot where
  width : Nat
  rows : Nat
  bitmap_left : Int
  bitmap_top : Int
  advance_x : Int
  buffer : Nat → Nat

/-- An open `FT_Face`: the fields the code reads and the answers of the calls it
makes.  `firstChar` is `FT_Get_First_Char` and `nextChar` is `FT_Get_Next_Char`,
both giving (character code, glyph index).  `loadChar size code` is
`FT_Load_Char` after `FT_Set_Pixel_Sizes(face, 0, size)`; `none` is an error code. -/
structure Face where
  face_index : Int
  family_name : String
  num_faces : Int
  max_advance_height : Int
  style_flags : Int
  firstChar : Nat × Nat
  nextChar : Nat → Nat × Nat
  loadChar : Int → Nat → Option GlyphSlot

/-- The library handle: `FT_New_Face` on a C string and `FT_New_Memory_Face` on a
byte buffer, each for a face index; `none` is a result other than `FT_Err_Ok`. -/
structure Engine where
  newFace : List Nat → Nat → Option Face
  newMemoryFace : List Nat → Nat → Option Face

/-- Calls on the engine that create or destroy a face handle. -/
inductive Event where
  /-- A successful `FT_New_Face` / `FT_New_Memory_Face` for the face index. -/
  | newFace (faceIndex : Nat)
  /-- Call of `FT_Done_Face` on the handle opened for the face index. -/
  | doneFace (faceIndex : Nat)
deriving DecidableEq, Repr

/-- Constant `FT_STYLE_FLAG_ITALIC` of the FreeType headers: bit 0. -/
def FT_STYLE_FLAG_ITALIC : Int := 1

/-- Constant `FT_STYLE_FLAG_BOLD` of the FreeType headers: bit 1. -/
def FT_STYLE_FLAG_BOLD : Int := 2

/-- Conversion of an `unsigned int` to `Int32`. -/
def toInt32 (n : Nat) : Int :=
  if n % 4294967296 < 2147483648 then (n % 4294967296 : Nat) else (n % 4294967296 : Nat) - 4294967296

/-- Product of two `Int32` values as the code computes it: the mathematical
product reduced modulo `2^32` into the `Int32` range. -/
def mulInt32 (a b : Int) : Int :=
  (a * b + 2147483648) % 4294967296 - 2147483648

/-! ## `ProcessFontFace` (lines 169-227) -/

/-- Lines 178-189: the font info is filled from the face when the face reports
index 0, and is left as it is otherwise. -/
def ProcessFontFace.fillFontInfo (face : Face) (fontSize : Int) (fontInfo : FontInfo) : FontInfo :=
  if face.face_index = 0 then
    let numFaces := face.num_faces
    let lineHeight := face.max_advance_height
    { Family := face.family_name
      NumFaces := some (if numFaces < 1 then 1 else numFaces)
      LineHeight := some (if lineHeight < 1 then fontSize else lineHeight) }
  else fontInfo

/-- Lines 202-213: the glyph built from a rendered slot.  The image array is
allocated with `Width * Height` elements and filled from the engine buffer only
when both dimensions are positive.  The product is an `Int32` product and wraps
around; a negative result makes `gcnew array` throw. -/
def ProcessFontFace.makeGlyph (charCode : Nat) (slot : GlyphSlot) : Except Err Glyph :=
  let width := toInt32 slot.width
  let height := toInt32 slot.rows
  let size := mulInt32 width height
  if size < 0 then .error .overflow
  else
    .ok { CharCode := charCode
          Width := width
          Height := height
          BearingX := slot.bitmap_left
          BearingY := slot.bitmap_top
          Advance := slot.advance_x
          ImageData :=
            if 0 < width ∧ 0 < height then (List.range size.toNat).map slot.buffer
            else List.replicate size.toNat 0 }

/-- Lines 193-219: the `while (glyhpIndex != 0)` loop, started at the current
character code and glyph index with the glyphs collected so far. -/
def ProcessFontFace.loop (face : Face) (fontSize : Int) :
    Nat → Nat → Nat → List Glyph → Except Err (List Glyph)
  | 0, _, glyhpIndex, glyphs => if glyhpIndex = 0 then .ok glyphs else .error .outOfFuel
  | fuel + 1, charCode, glyhpIndex, glyphs =>
    if glyhpIndex = 0 then .ok glyphs
    else
      match face.loadChar fontSize charCode with
      | none =>
        ProcessFontFace.loop face fontSize fuel (face.nextChar charCode).1 (face.nextChar charCode).2 glyphs
      | some slot =>
        match ProcessFontFace.makeGlyph charCode slot with
        | .error e => .error e
        | .ok glyph =>
          ProcessFontFace.loop face fontSize fuel (face.nextChar charCode).1 (face.nextChar charCode).2
            (glyphs ++ [glyph])

/-- Method `FontFace ProcessFontFace(FT_Face face, Int32 fontSize, FontInfo& fontInfo)`:
the font face and the font info after the call.  `fuel` bounds the iterations of
the glyph loop. -/
def ProcessFontFace (face : Face) (fontSize : Int) (fontInfo : FontInfo) (fuel : Nat) :
    Except Err (FontFace × FontInfo) :=
  let fontInfo := ProcessFontFace.fillFontInfo face fontSize fontInfo
  match ProcessFontFace.loop face fontSize fuel face.firstChar.1 face.firstChar.2 [] with
  | .error e => .error e
  | .ok glyphs =>
    .ok ({ FaceIndex := face.face_index
           Bold := decide (Int.land face.style_flags FT_STYLE_FLAG_BOLD ≠ 0)
           Italic := decide (Int.land face.style_flags FT_STYLE_FLAG_ITALIC ≠ 0)
           Glyphs := glyphs }, fontInfo)

/-- The engine's enumeration of character codes: the first code, then the code
after each one, until the glyph index is 0.  `none` when it is longer than
`fuel`. -/
def Face.charCodesFrom (face : Face) : Nat → Nat → Nat → Option (List Nat)
  | 0, _, glyphIndex => if glyphIndex = 0 then some [] else none
  | fuel + 1, charCode, glyphIndex =>
    if glyphIndex = 0 then some []
    else
      (face.charCodesFrom fuel (face.nextChar charCode).1 (face.nextChar charCode).2).map
        (fun rest => charCode :: rest)

/-- Enumeration of a face from `FT_Get_First_Char`. -/
def Face.charCodes (face : Face) (fuel : Nat) : Option (List Nat) :=
  face.charCodesFrom fuel face.firstChar.1 face.firstChar.2

/-! ## Opening a face (lines 76-81, 99-102, 117-121) -/

/-- Method `StringToCpp`: the UTF-8 bytes of the managed string.  `&bytes[0]` is an
access to element 0 of the managed array and throws when the array is empty. -/
def StringToCpp (str : String) : Except Err (List Nat) :=
  let bytes := str.toUTF8.data.toList.map UInt8.toNat
  if 0 < bytes.length then .ok bytes else .error .indexOutOfRange

/-- Member `std::string::c_str`: the bytes up to the first zero. -/
def c_str (s : List Nat) : List Nat := s.takeWhile (fun b => b != 0)

/-- Lines 99-102: the face handle for a file name, or the exception. -/
def openFile (engine : Engine) (fontFile : String) (faceIndex : Nat) : Except Err Face :=
  match StringToCpp fontFile with
  | .error e => .error e
  | .ok s =>
    match engine.newFace (c_str s) faceIndex with
    | none => .error .loadFailed
    | some face => .ok face

/-- Lines 117-121: the face handle for a byte array, or the exception.
`&data[0]` throws when the array is empty. -/
def openData (engine : Engine) (data : List Nat) (faceIndex : Nat) : Except Err Face :=
  if 0 < data.length then
    match engine.newMemoryFace data faceIndex with
    | none => .error .loadFailed
    | some face => .ok face
  else .error .indexOutOfRange

/-! ## `LoadFontFace` (lines 97-131) -/

/-- Method `FontFace LoadFontFace(String^ fontFile, Int32 fontSize, Int32 faceIndex, FontInfo& fontInfo)`.
The `finally` block runs `FT_Done_Face` after `ProcessFontFace`, whether it
returned or threw. -/
def LoadFontFaceFile (engine : Engine) (fontFile : String) (fontSize : Int) (faceIndex : Nat)
    (fontInfo : FontInfo) (fuel : Nat) : Except Err (FontFace × FontInfo) × List Event :=
  match openFile engine fontFile faceIndex with
  | .error e => (.error e, [])
  | .ok face =>
    (ProcessFontFace face fontSize fontInfo fuel, [Event.newFace faceIndex, Event.doneFace faceIndex])

/-- Method `FontFace LoadFontFace(array<Byte>^ data, Int32 fontSize, Int32 faceIndex, FontInfo& fontInfo)`. -/
def LoadFontFaceData (engine : Engine) (data : List Nat) (fontSize : Int) (faceIndex : Nat)
    (fontInfo : FontInfo) (fuel : Nat) : Except Err (FontFace × FontInfo) × List Event :=
  match openData engine data faceIndex with
  | .error e => (.error e, [])
  | .ok face =>
    (ProcessFontFace face fontSize fontInfo fuel, [Event.newFace faceIndex, Event.doneFace faceIndex])

/-! ## `CreateFont` (lines 157-167) -/

/-- Default value of `FontFace`, the content of a new array element. -/
def FontFace.zero : FontFace := { FaceIndex := 0, Bold := false, Italic := false, Glyphs := [] }

/-- Method `Font CreateFont(FontFace firstFace, Int32 fontSize, const FontInfo& fontInfo)`.
The array has `fontInfo.NumFaces` elements, each the default `FontFace`, and
element 0 is then assigned. -/
def CreateFont (firstFace : FontFace) (fontSize : Int) (fontInfo : FontInfo) : Except Err Font :=
  match fontInfo.NumFaces with
  | none => .error .undefined
  | some numFaces =>
    if numFaces < 0 then .error .overflow
    else
      let faces := List.replicate numFaces.toNat FontFace.zero
      if 0 < faces.length then
        .ok { Family := fontInfo.Family, Size := fontSize, Faces := faces.set 0 firstFace }
      else .error .indexOutOfRange

/-! ## `ProcessFont` (lines 133-155) -/

/-- Lines 137-142 of the `String^` overload: the loop from index `i` on.  The
bound `fontInfo.NumFaces` is read at every test; the face is loaded before the
element `font.Faces[i]` is stored.  The first argument bounds the number of
iterations. -/
def ProcessFontFile.loop (engine : Engine) (fontFile : String) (fontSize : Int) (fuel : Nat) :
    Nat → Nat → Font → FontInfo → Except Err (Font × FontInfo) × List Event
  | 0, i, font, fontInfo =>
    match fontInfo.NumFaces with
    | none => (.error .undefined, [])
    | some numFaces =>
      if (i : Int) < numFaces then (.error .outOfFuel, []) else (.ok (font, fontInfo), [])
  | steps + 1, i, font, fontInfo =>
    match fontInfo.NumFaces with
    | none => (.error .undefined, [])
    | some numFaces =>
      if (i : Int) < numFaces then
        match LoadFontFaceFile engine fontFile fontSize i fontInfo fuel with
        | (.error e, events) => (.error e, events)
        | (.ok (face, fontInfo), events) =>
          if i < font.Faces.length then
            let rest := ProcessFontFile.loop engine fontFile fontSize fuel steps (i + 1)
              { font with Faces := font.Faces.set i face } fontInfo
            (rest.1, events ++ rest.2)
          else (.error .indexOutOfRange, events)
      else (.ok (font, fontInfo), [])

/-- Method `Font ProcessFont(FontFace firstFace, String^ fontFile, Int32 fontSize, FontInfo& fontInfo)`:
the font and the font info after the call.  The loop is given as many iterations
as the font has slots; it cannot use more, since an iteration past the last slot
throws. -/
def ProcessFontFile (engine : Engine) (firstFace : FontFace) (fontFile : String) (fontSize : Int)
    (fontInfo : FontInfo) (fuel : Nat) : Except Err (Font × FontInfo) × List Event :=
  match CreateFont firstFace fontSize fontInfo with
  | .error e => (.error e, [])
  | .ok font => ProcessFontFile.loop engine fontFile fontSize fuel font.Faces.length 1 font fontInfo

/-- Lines 149-154 of the `array<Byte>^` overload: the same loop on the byte array. -/
def ProcessFontData.loop (engine : Engine) (data : List Nat) (fontSize : Int) (fuel : Nat) :
    Nat → Nat → Font → FontInfo → Except Err (Font × FontInfo) × List Event
  | 0, i, font, fontInfo =>
    match fontInfo.NumFaces with
    | none => (.error .undefined, [])
    | some numFaces =>
      if (i : Int) < numFaces then (.error .outOfFuel, []) else (.ok (font, fontInfo), [])
  | steps + 1, i, font, fontInfo =>
    match fontInfo.NumFaces with
    | none => (.error .undefined, [])
    | some numFaces =>
      if (i : Int) < numFaces then
        match LoadFontFaceData engine data fontSize i fontInfo fuel with
        | (.error e, events) => (.error e, events)
        | (.ok (face, fontInfo), events) =>
          if i < font.Faces.length then
            let rest := ProcessFontData.loop engine data fontSize fuel steps (i + 1)
              { font with Faces := font.Faces.set i face } fontInfo
            (rest.1, events ++ rest.2)
          else (.error .indexOutOfRange, events)
      else (.ok (font, fontInfo), [])

/-- Method `Font ProcessFont(FontFace firstFace, array<Byte>^ data, Int32 fontSize, FontInfo& fontInfo)`:
the font and the font info after the call. -/
def ProcessFontData (engine : Engine) (firstFace : FontFace) (data : List Nat) (fontSize : Int)
    (fontInfo : FontInfo) (fuel : Nat) : Except Err (Font × FontInfo) × List Event :=
  match CreateFont firstFace fontSize fontInfo with
  | .error e => (.error e, [])
  | .ok font => ProcessFontData.loop engine data fontSize fuel font.Faces.length 1 font fontInfo

/-! ## `LoadFont` (lines 83-95) -/

/-- The local `FontInfo fontInfo;` of `LoadFont`: an empty `std::string` and two
indeterminate `int`s. -/
def FontInfo.indeterminate : FontInfo := { Family := "", NumFaces := none, LineHeight := none }

/-- Method `Font LoadFont(String^ fontFile, Int32 fontSize)`.  `fuel` bounds the
iterations of the glyph loop of each face. -/
def LoadFontFile (engine : Engine) (fontFile : String) (fontSize : Int) (fuel : Nat) :
    Except Err Font × List Event :=
  match LoadFontFaceFile engine fontFile fontSize 0 FontInfo.indeterminate fuel with
  | (.error e, events) => (.error e, events)
  | (.ok (firstFace, fontInfo), events) =>
    let rest := ProcessFontFile engine firstFace fontFile fontSize fontInfo fuel
    (rest.1.map Prod.fst, events ++ rest.2)

/-- Method `Font LoadFont(array<Byte>^ data, Int32 fontSize)`. -/
def LoadFontData (engine : Engine) (data : List Nat) (fontSize : Int) (fuel : Nat) :
    Except Err Font × List Event :=
  match LoadFontFaceData engine data fontSize 0 FontInfo.indeterminate fuel with
  | (.error e, events) => (.error e, events)
  | (.ok (firstFace, fontInfo), events) =>
    let rest := ProcessFontData engine firstFace data fontSize fontInfo fuel
    (rest.1.map Prod.fst, events ++ rest.2)

/-! ## The two overloads as one entry point (lines 246-254) -/

/-- The font resource of a call: a file name or a byte array. -/
inductive Source where
  | file (fontFile : String)
  | data (bytes : List Nat)

/-- The open step of `LoadFontFace` for a resource. -/
def openFace (engine : Engine) : Source → Nat → Except Err Face
  | .file fontFile, faceIndex => openFile engine fontFile faceIndex
  | .data bytes, faceIndex => openData engine bytes faceIndex

/-- Method `LoadFontFace`, by overload. -/
def LoadFontFace (engine : Engine) : Source → Int → Nat → FontInfo → Nat →
    Except Err (FontFace × FontInfo) × List Event
  | .file fontFile, fontSize, faceIndex, fontInfo, fuel =>
    LoadFontFaceFile engine fontFile fontSize faceIndex fontInfo fuel
  | .data bytes, fontSize, faceIndex, fontInfo, fuel =>
    LoadFontFaceData engine bytes fontSize faceIndex fontInfo fuel

/-- Method `ProcessFont`, by overload. -/
def ProcessFont (engine : Engine) (firstFace : FontFace) : Source → Int → FontInfo → Nat →
    Except Err (Font × FontInfo) × List Event
  | .file fontFile, fontSize, fontInfo, fuel =>
    ProcessFontFile engine firstFace fontFile fontSize fontInfo fuel
  | .data bytes, fontSize, fontInfo, fuel =>
    ProcessFontData engine firstFace bytes fontSize fontInfo fuel

/-- Method `FreeType::LoadFont`, by overload. -/
def LoadFont (engine : Engine) : Source → Int → Nat → Except Err Font × List Event
  | .file fontFile, fontSize, fuel => LoadFontFile engine fontFile fontSize fuel
  | .data bytes, fontSize, fuel => LoadFontData engine bytes fontSize fuel

/-! ## Loading through an arbitrary open step

The two overloads have the same shape.  The definitions below abstract the open
step; each overload is shown equal to its instance, and the properties of the
loop are proved once. -/

/-- Method `LoadFontFace` over an arbitrary open step. -/
def loadFaceVia (opn : Nat → Except Err Face) (fontSize : Int) (faceIndex : Nat)
    (fontInfo : FontInfo) (fuel : Nat) : Except Err (FontFace × FontInfo) × List Event :=
  match opn faceIndex with
  | .error e => (.error e, [])
  | .ok face =>
    (ProcessFontFace face fontSize fontInfo fuel, [Event.newFace faceIndex, Event.doneFace faceIndex])

/-- The loop of `ProcessFont` over an arbitrary open step. -/
def loopVia (opn : Nat → Except Err Face) (fontSize : Int) (fuel : Nat) :
    Nat → Nat → Font → FontInfo → Except Err (Font × FontInfo) × List Event
  | 0, i, font, fontInfo =>
    match fontInfo.NumFaces with
    | none => (.error .undefined, [])
    | some numFaces =>
      if (i : Int) < numFaces then (.error .outOfFuel, []) else (.ok (font, fontInfo), [])
  | steps + 1, i, font, fontInfo =>
    match fontInfo.NumFaces with
    | none => (.error .undefined, [])
    | some numFaces =>
      if (i : Int) < numFaces then
        match loadFaceVia opn fontSize i fontInfo fuel with
        | (.error e, events) => (.error e, events)
        | (.ok (face, fontInfo), events) =>
          if i < font.Faces.length then
            let rest := loopVia opn fontSize fuel steps (i + 1)
              { font with Faces := font.Faces.set i face } fontInfo
            (rest.1, events ++ rest.2)
          else (.error .indexOutOfRange, events)
      else (.ok (font, fontInfo), [])

/-- Method `ProcessFont` over an arbitrary open step. -/
def processFontVia (opn : Nat → Except Err Face) (firstFace : FontFace) (fontSize : Int)
    (fontInfo : FontInfo) (fuel : Nat) : Except Err (Font × FontInfo) × List Event :=
  match CreateFont firstFace fontSize fontInfo with
  | .error e => (.error e, [])
  | .ok font => loopVia opn fontSize fuel font.Faces.length 1 font fontInfo

/-- Method `LoadFont` over an arbitrary open step. -/
def loadFontVia (opn : Nat → Except Err Face) (fontSize : Int) (fuel : Nat) :
    Except Err Font × List Event :=
  match loadFaceVia opn fontSize 0 FontInfo.indeterminate fuel with
  | (.error e, events) => (.error e, events)
  | (.ok (firstFace, fontInfo), events) =>
    let rest := processFontVia opn firstFace fontSize fontInfo fuel
    (rest.1.map Prod.fst, events ++ rest.2)

/-! ## Vocabulary of the properties -/

/-- The image array of the slot can be allocated: the `Int32` product
`Width * Height` is not negative. -/
def GlyphSlot.allocatable (slot : GlyphSlot) : Prop :=
  0 ≤ mulInt32 (toInt32 slot.width) (toInt32 slot.rows)

/-- The engine reports, on every face it opens for the resource, the index it
was asked to open. -/
def IndexFaithful (opn : Nat → Except Err Face) : Prop :=
  ∀ i face, opn i = .ok face → face.face_index = (i : Int)

/-- Two results are the same outcome: the same value, or two failures, or two
runs that do not finish. -/
def sameOutcome {α : Type} : Except Err α → Except Err α → Prop
  | .ok x, .ok y => x = y
  | .error e₁, .error e₂ => (e₁ = Err.outOfFuel ↔ e₂ = Err.outOfFuel)
  | _, _ => False

/-- Two runs agree: the same events on the engine and the same outcome. -/
def agree {α : Type} (p q : Except Err α × List Event) : Prop :=
  p.2 = q.2 ∧ sameOutcome p.1 q.1

/-- The event list in which the faces of the given indices are opened one after
the other, each closed right after it was opened. -/
def bracket : List Nat → List Event
  | [] => []
  | i :: rest => Event.newFace i :: Event.doneFace i :: bracket rest

/-- Effect of one event on the list of open face handles. -/
def openFaces.step (opened : List Nat) : Event → List Nat
  | .newFace i => opened ++ [i]
  | .doneFace i => opened.erase i

/-- Face handles that are open after the events. -/
def openFaces (events : List Event) : List Nat :=
  events.foldl openFaces.step []

/-! ## Example engines -/

/-- Rendered slot of a 2 x 3 bitmap. -/
def demoSlot : GlyphSlot :=
  { width := 2, rows := 3, bitmap_left := 1, bitmap_top := 5, advance_x := 640,
    buffer := fun k => k + 10 }

/-- Rendered slot of a glyph without pixels, such as the space. -/
def emptySlot : GlyphSlot :=
  { width := 0, rows := 0, bitmap_left := 0, bitmap_top := 0, advance_x := 256,
    buffer := fun _ => 0 }

/-- A face that defines the codes 65 to 69, in that order; code 67 fails to
render and code 66 has no pixels.  It reports the given face index and face
count, and no line height. -/
def demoFace (faceIndex numFaces : Int) : Face :=
  { face_index := faceIndex
    family_name := "Demo"
    num_faces := numFaces
    max_advance_height := 0
    style_flags := 2
    firstChar := (65, 1)
    nextChar := fun c => if c < 69 then (c + 1, c - 63) else (0, 0)
    loadChar := fun _ c => if c = 67 then none else if c = 66 then some emptySlot else some demoSlot }

/-- A face that defines the single code 65 and renders it as a bitmap of 65536
by 65536. -/
def hugeFace : Face :=
  { face_index := 0
    family_name := "Huge"
    num_faces := 1
    max_advance_height := 0
    style_flags := 0
    firstChar := (65, 1)
    nextChar := fun _ => (0, 0)
    loadChar := fun _ _ =>
      some { width := 65536, rows := 65536, bitmap_left := 0, bitmap_top := 0, advance_x := 0,
             buffer := fun _ => 0 } }

/-- A resource with two faces, the same through both open calls. -/
def demoEngine : Engine :=
  { newFace := fun _ i => if i = 0 then some (demoFace 0 2) else if i = 1 then some (demoFace 1 2) else none
    newMemoryFace := fun _ i => if i = 0 then some (demoFace 0 2) else if i = 1 then some (demoFace 1 2) else none }

/-- A resource whose face 0 declares a face count of 0. -/
def zeroCountEngine : Engine :=
  { newFace := fun _ i => if i = 0 then some (demoFace 0 0) else none
    newMemoryFace := fun _ i => if i = 0 then some (demoFace 0 0) else none }

/-- A resource with two faces whose second face reports face index 5. -/
def misreportEngine : Engine :=
  { newFace := fun _ i => if i = 0 then some (demoFace 0 2) else if i = 1 then some (demoFace 5 2) else none
    newMemoryFace := fun _ _ => none }

/-- A resource whose face 0 declares three faces, whose face opened at index 1
reports face index 0 and two faces, and whose face 2 cannot be opened. -/
def repeatEngine : Engine :=
  { newFace := fun _ i =>
      if i = 0 then some (demoFace 0 3)
      else if i = 1 then some { demoFace 0 2 with family_name := "Other", max_advance_height := 40 }
      else none
    newMemoryFace := fun _ _ => none }

/-! ## The overloads are instances of the abstract loader -/

/-- Both overloads of `LoadFontFace` are the abstract one at their open step. -/
theorem loadFontFace_eq_via (engine : Engine) (src : Source) (fontSize : Int) (faceIndex : Nat)
    (fontInfo : FontInfo) (fuel : Nat) :
    LoadFontFace engine src fontSize faceIndex fontInfo fuel
      = loadFaceVia (openFace engine src) fontSize faceIndex fontInfo fuel := by
  cases src <;> rfl

/-- The loop of the `String^` overload is the abstract loop at `openFile`. -/
theorem processFontFile_loop_eq_via (engine : Engine) (fontFile : String) (fontSize : Int)
    (fuel steps : Nat) : ∀ (i : Nat) (font : Font) (fontInfo : FontInfo),
    ProcessFontFile.loop engine fontFile fontSize fuel steps i font fontInfo
      = loopVia (openFile engine fontFile) fontSize fuel steps i font fontInfo := by
  induction steps with
  | zero => intro i font fontInfo; rfl
  | succ n ih =>
    intro i font fontInfo
    simp only [ProcessFontFile.loop, loopVia, ih]
    rfl

/-- The loop of the `array<Byte>^` overload is the abstract loop at `openData`. -/
theorem processFontData_loop_eq_via (engine : Engine) (data : List Nat) (fontSize : Int)
    (fuel steps : Nat) : ∀ (i : Nat) (font : Font) (fontInfo : FontInfo),
    ProcessFontData.loop engine data fontSize fuel steps i font fontInfo
      = loopVia (openData engine data) fontSize fuel steps i font fontInfo := by
  induction steps with
  | zero => intro i font fontInfo; rfl
  | succ n ih =>
    intro i font fontInfo
    simp only [ProcessFontData.loop, loopVia, ih]
    rfl

/-- Both overloads of `ProcessFont` are the abstract one at their open step. -/
theorem processFont_eq_via (engine : Engine) (firstFace : FontFace) (src : Source)
    (fontSize : Int) (fontInfo : FontInfo) (fuel : Nat) :
    ProcessFont engine firstFace src fontSize fontInfo fuel
      = processFontVia (openFace engine src) firstFace fontSize fontInfo fuel := by
  cases src with
  | file fontFile =>
    simp only [ProcessFont, ProcessFontFile, processFontVia, processFontFile_loop_eq_via, openFace]
    rfl
  | data bytes =>
    simp only [ProcessFont, ProcessFontData, processFontVia, processFontData_loop_eq_via, openFace]
    rfl

/-- Both overloads of `LoadFont` are the abstract one at their open step. -/
theorem loadFont_eq_via (engine : Engine) (src : Source) (fontSize : Int) (fuel : Nat) :
    LoadFont engine src fontSize fuel = loadFontVia (openFace engine src) fontSize fuel := by
  cases src with
  | file fontFile =>
    have h := fun ff fi => processFont_eq_via engine ff (.file fontFile) fontSize fi fuel
    simp only [ProcessFont] at h
    simp only [LoadFont, LoadFontFile, loadFontVia, h]
    rfl
  | data bytes =>
    have h := fun ff fi => processFont_eq_via engine ff (.data bytes) fontSize fi fuel
    simp only [ProcessFont] at h
    simp only [LoadFont, LoadFontData, loadFontVia, h]
    rfl

/-! ## Lemmas on `ProcessFontFace` -/

/-- The `Int32` product is the product when the product is an `Int32`. -/
theorem mulInt32_of_fits (a b : Int) (h₁ : -2147483648 ≤ a * b) (h₂ : a * b ≤ 2147483647) :
    mulInt32 a b = a * b := by
  unfold mulInt32
  generalize a * b = x at h₁ h₂ ⊢
  omega

/-- A glyph is built from a rendered slot exactly when its image array can be allocated. -/
theorem makeGlyph_ok_iff (charCode : Nat) (slot : GlyphSlot) :
    (∃ glyph, ProcessFontFace.makeGlyph charCode slot = .ok glyph) ↔ slot.allocatable := by
  unfold ProcessFontFace.makeGlyph GlyphSlot.allocatable
  simp only []
  constructor
  · rintro ⟨glyph, h⟩
    split at h
    · cases h
    · omega
  · intro h1
    rw [if_neg (by omega)]
    exact ⟨_, rfl⟩

/-- Code and image size of a glyph built from a rendered slot. -/
theorem makeGlyph_spec {charCode : Nat} {slot : GlyphSlot} {glyph : Glyph}
    (h : ProcessFontFace.makeGlyph charCode slot = .ok glyph) :
    glyph.CharCode = charCode ∧
      (glyph.ImageData.length : Int) = mulInt32 glyph.Width glyph.Height ∧
      (-2147483648 ≤ glyph.Width * glyph.Height → glyph.Width * glyph.Height ≤ 2147483647 →
        (glyph.ImageData.length : Int) = glyph.Width * glyph.Height) ∧
      (glyph.Width = 0 ∨ glyph.Height = 0 → glyph.ImageData = []) := by
  unfold ProcessFontFace.makeGlyph at h
  simp only [] at h
  split at h
  · cases h
  · rename_i h1
    injection h with h
    subst h
    have hlen : ((if 0 < toInt32 slot.width ∧ 0 < toInt32 slot.rows then
          (List.range (mulInt32 (toInt32 slot.width) (toInt32 slot.rows)).toNat).map slot.buffer
        else List.replicate (mulInt32 (toInt32 slot.width) (toInt32 slot.rows)).toNat 0).length : Int)
        = mulInt32 (toInt32 slot.width) (toInt32 slot.rows) := by
      split <;> simp <;> omega
    refine ⟨rfl, hlen, ?_, ?_⟩
    · intro h₁ h₂
      simp only [] at h₁ h₂ ⊢
      rw [hlen, mulInt32_of_fits _ _ h₁ h₂]
    · intro h0
      simp only [] at h0 ⊢
      have hz : mulInt32 (toInt32 slot.width) (toInt32 slot.rows) = 0 := by
        rcases h0 with h0 | h0 <;> simp [h0, mulInt32]
      rw [hz]
      split <;> simp

/-- A run of the glyph loop that returns has followed the engine's enumeration to
its end and has appended one glyph for each code that rendered, in order. -/
theorem processFontFace_loop_spec (face : Face) (fontSize : Int) :
    ∀ (fuel charCode glyhpIndex : Nat) (acc glyphs : List Glyph),
      ProcessFontFace.loop face fontSize fuel charCode glyhpIndex acc = .ok glyphs →
      ∃ codes new, face.charCodesFrom fuel charCode glyhpIndex = some codes ∧
        glyphs = acc ++ new ∧
        new.map Glyph.CharCode = codes.filter (fun c => (face.loadChar fontSize c).isSome) ∧
        (∀ c ∈ codes, ∀ slot, face.loadChar fontSize c = some slot → slot.allocatable) ∧
        ∀ x ∈ new, ∃ c slot, ProcessFontFace.makeGlyph c slot = .ok x := by
  intro fuel
  induction fuel with
  | zero =>
    intro c g acc glyphs h
    simp only [ProcessFontFace.loop] at h
    split at h
    · rename_i hg
      injection h with h
      exact ⟨[], [], by simp [Face.charCodesFrom, hg], by simp [h], by simp, by simp, by simp⟩
    · cases h
  | succ n ih =>
    intro c g acc glyphs h
    simp only [ProcessFontFace.loop] at h
    split at h
    · rename_i hg
      injection h with h
      exact ⟨[], [], by simp [Face.charCodesFrom, hg], by simp [h], by simp, by simp, by simp⟩
    · rename_i hg
      split at h
      · rename_i hload
        obtain ⟨codes, new, h1, h2, h3, h4, h5⟩ := ih _ _ _ _ h
        refine ⟨c :: codes, new, by simp [Face.charCodesFrom, hg, h1], h2, ?_, ?_, h5⟩
        · simp [List.filter_cons, hload, h3]
        · intro c' hc' slot hs
          rcases List.mem_cons.1 hc' with rfl | hc'
          · rw [hload] at hs; cases hs
          · exact h4 c' hc' slot hs
      · rename_i slot hload
        split at h
        · cases h
        · rename_i glyph hmk
          obtain ⟨codes, new, h1, h2, h3, h4, h5⟩ := ih _ _ _ _ h
          refine ⟨c :: codes, glyph :: new, by simp [Face.charCodesFrom, hg, h1], by simp [h2], ?_, ?_, ?_⟩
          · simp [List.filter_cons, hload, h3, (makeGlyph_spec hmk).1]
          · intro c' hc' slot' hs
            rcases List.mem_cons.1 hc' with rfl | hc'
            · rw [hload] at hs
              injection hs with hs
              subst hs
              exact (makeGlyph_ok_iff _ _).1 ⟨_, hmk⟩
            · exact h4 c' hc' slot' hs
          · intro x hx
            rcases List.mem_cons.1 hx with rfl | hx
            · exact ⟨_, _, hmk⟩
            · exact h5 x hx

/-- The glyph loop returns when the enumeration ends within the fuel and every
rendered slot can be allocated. -/
theorem processFontFace_loop_total (face : Face) (fontSize : Int) :
    ∀ (fuel charCode glyhpIndex : Nat) (acc : List Glyph) (codes : List Nat),
      face.charCodesFrom fuel charCode glyhpIndex = some codes →
      (∀ c ∈ codes, ∀ slot, face.loadChar fontSize c = some slot → slot.allocatable) →
      ∃ glyphs, ProcessFontFace.loop face fontSize fuel charCode glyhpIndex acc = .ok glyphs := by
  intro fuel
  induction fuel with
  | zero =>
    intro c g acc codes h _
    simp only [Face.charCodesFrom] at h
    split at h
    · rename_i hg
      exact ⟨acc, by simp [ProcessFontFace.loop, hg]⟩
    · cases h
  | succ n ih =>
    intro c g acc codes h hall
    simp only [Face.charCodesFrom] at h
    split at h
    · rename_i hg
      exact ⟨acc, by simp [ProcessFontFace.loop, hg]⟩
    · rename_i hg
      simp only [Option.map_eq_some'] at h
      obtain ⟨rest, hrest, rfl⟩ := h
      have hall' : ∀ c ∈ rest, ∀ slot, face.loadChar fontSize c = some slot → slot.allocatable :=
        fun c' hc' => hall c' (List.mem_cons_of_mem _ hc')
      simp only [ProcessFontFace.loop, if_neg hg]
      cases hload : face.loadChar fontSize c with
      | none => exact ih _ _ _ _ hrest hall'
      | some slot =>
        obtain ⟨glyph, hmk⟩ := (makeGlyph_ok_iff c slot).2 (hall c (List.mem_cons_self _ _) slot hload)
        simp only [hmk]
        exact ih _ _ _ _ hrest hall'

/-- One more unit of fuel keeps an enumeration that has ended. -/
theorem charCodesFrom_mono (face : Face) :
    ∀ (fuel charCode glyphIndex : Nat) (codes : List Nat),
      face.charCodesFrom fuel charCode glyphIndex = some codes →
      face.charCodesFrom (fuel + 1) charCode glyphIndex = some codes := by
  intro fuel
  induction fuel with
  | zero =>
    intro c g codes h
    simp only [Face.charCodesFrom] at h ⊢
    split at h
    · rename_i hg; simpa [hg] using h
    · cases h
  | succ n ih =>
    intro c g codes h
    rw [Face.charCodesFrom] at h ⊢
    split at h
    · rename_i hg; simpa [hg] using h
    · rename_i hg
      simp only [Option.map_eq_some'] at h
      obtain ⟨rest, hrest, rfl⟩ := h
      simp only [if_neg hg, ih _ _ _ hrest, Option.map_some']

/-- An enumeration that ends within `fuel` steps is the same for any larger bound. -/
theorem charCodes_mono (face : Face) (fuel extra : Nat) (codes : List Nat)
    (h : face.charCodes fuel = some codes) : face.charCodes (fuel + extra) = some codes := by
  induction extra with
  | zero => exact h
  | succ n ih => exact charCodesFrom_mono face _ _ _ _ ih

/-- What a returning `ProcessFontFace` hands back. -/
theorem processFontFace_ok {face : Face} {fontSize : Int} {fontInfo : FontInfo} {fuel : Nat}
    {fontFace : FontFace} {fontInfo' : FontInfo}
    (h : ProcessFontFace face fontSize fontInfo fuel = .ok (fontFace, fontInfo')) :
    fontInfo' = ProcessFontFace.fillFontInfo face fontSize fontInfo ∧
      fontFace.FaceIndex = face.face_index ∧
      ProcessFontFace.loop face fontSize fuel face.firstChar.1 face.firstChar.2 [] = .ok fontFace.Glyphs := by
  unfold ProcessFontFace at h
  simp only [] at h
  split at h
  · cases h
  · rename_i glyphs hl
    injection h with h
    injection h with h1 h2
    subst h1 h2
    exact ⟨rfl, rfl, hl⟩

/-- The glyph codes of a returned face are the enumerated codes that rendered. -/
theorem processFontFace_codes_of_ok {face : Face} {fontSize : Int} {fontInfo : FontInfo} {fuel : Nat}
    {fontFace : FontFace} {fontInfo' : FontInfo}
    (h : ProcessFontFace face fontSize fontInfo fuel = .ok (fontFace, fontInfo')) :
    ∃ codes, face.charCodes fuel = some codes ∧
      fontFace.Glyphs.map Glyph.CharCode
        = codes.filter (fun c => (face.loadChar fontSize c).isSome) := by
  obtain ⟨-, -, hloop⟩ := processFontFace_ok h
  obtain ⟨codes, new, h1, h2, h3, -, -⟩ := processFontFace_loop_spec face fontSize _ _ _ _ _ hloop
  refine ⟨codes, h1, ?_⟩
  rw [h2, List.nil_append, h3]

/-- The image size of every glyph of a returned face. -/
theorem processFontFace_glyphs_of_ok {face : Face} {fontSize : Int} {fontInfo : FontInfo} {fuel : Nat}
    {fontFace : FontFace} {fontInfo' : FontInfo}
    (h : ProcessFontFace face fontSize fontInfo fuel = .ok (fontFace, fontInfo')) :
    ∀ glyph ∈ fontFace.Glyphs,
      (glyph.ImageData.length : Int) = mulInt32 glyph.Width glyph.Height ∧
      (-2147483648 ≤ glyph.Width * glyph.Height → glyph.Width * glyph.Height ≤ 2147483647 →
        (glyph.ImageData.length : Int) = glyph.Width * glyph.Height) ∧
      (glyph.Width = 0 ∨ glyph.Height = 0 → glyph.ImageData = []) := by
  obtain ⟨-, -, hloop⟩ := processFontFace_ok h
  obtain ⟨codes, new, -, h2, -, -, h5⟩ := processFontFace_loop_spec face fontSize _ _ _ _ _ hloop
  intro glyph hg
  rw [h2, List.nil_append] at hg
  obtain ⟨c, slot, hmk⟩ := h5 glyph hg
  exact (makeGlyph_spec hmk).2

/-- A face loaded at an index the engine reports as non-zero leaves the font info as it was. -/
theorem fillFontInfo_of_ne {face : Face} (fontSize : Int) (fontInfo : FontInfo)
    (h : face.face_index ≠ 0) : ProcessFontFace.fillFontInfo face fontSize fontInfo = fontInfo := by
  simp [ProcessFontFace.fillFontInfo, h]

/-- Filling keeps `NumFaces` assigned and at least 1. -/
theorem fillFontInfo_numFaces (face : Face) (fontSize : Int) (fontInfo : FontInfo)
    (h : ∃ n : Int, fontInfo.NumFaces = some n ∧ 1 ≤ n) :
    ∃ n : Int, (ProcessFontFace.fillFontInfo face fontSize fontInfo).NumFaces = some n ∧ 1 ≤ n := by
  unfold ProcessFontFace.fillFontInfo
  split
  · simp only []
    refine ⟨_, rfl, ?_⟩
    split <;> omega
  · exact h

/-! ## Lemmas on the face loop -/

/-- A returning `LoadFontFace` opened the face, processed it and closed it. -/
theorem loadFaceVia_ok {opn : Nat → Except Err Face} {fontSize : Int} {i : Nat} {fontInfo : FontInfo}
    {fuel : Nat} {fontFace : FontFace} {fontInfo' : FontInfo} {events : List Event}
    (h : loadFaceVia opn fontSize i fontInfo fuel = (.ok (fontFace, fontInfo'), events)) :
    ∃ face, opn i = .ok face ∧ ProcessFontFace face fontSize fontInfo fuel = .ok (fontFace, fontInfo') ∧
      events = [Event.newFace i, Event.doneFace i] := by
  unfold loadFaceVia at h
  split at h
  · cases h
  · rename_i face hopen
    injection h with h1 h2
    exact ⟨face, hopen, h1, h2.symm⟩

/-- Invariant rule of the face loop: a property of (index, font, font info) that
every successful iteration keeps holds when the loop returns, at an index that
is no longer below `NumFaces`. -/
theorem loopVia_ok_inv {opn : Nat → Except Err Face} {fontSize : Int} {fuel : Nat}
    (P : Nat → Font → FontInfo → Prop)
    (hstep : ∀ i font fontInfo fontFace fontInfo' events numFaces, P i font fontInfo →
      fontInfo.NumFaces = some numFaces → (i : Int) < numFaces →
      loadFaceVia opn fontSize i fontInfo fuel = (.ok (fontFace, fontInfo'), events) →
      i < font.Faces.length →
      P (i + 1) { font with Faces := font.Faces.set i fontFace } fontInfo') :
    ∀ (steps i : Nat) (font : Font) (fontInfo : FontInfo) (font' : Font) (fontInfo' : FontInfo),
      P i font fontInfo →
      (loopVia opn fontSize fuel steps i font fontInfo).1 = .ok (font', fontInfo') →
      ∃ k numFaces, P k font' fontInfo' ∧ fontInfo'.NumFaces = some numFaces ∧ ¬ ((k : Int) < numFaces) := by
  intro steps
  induction steps with
  | zero =>
    intro i font fontInfo font' fontInfo' hP h
    simp only [loopVia] at h
    split at h
    · cases h
    · rename_i numFaces hn
      split at h
      · cases h
      · rename_i hlt
        injection h with h
        injection h with h1 h2
        subst h1 h2
        exact ⟨i, numFaces, hP, hn, hlt⟩
  | succ n ih =>
    intro i font fontInfo font' fontInfo' hP h
    simp only [loopVia] at h
    split at h
    · cases h
    · rename_i numFaces hn
      split at h
      · rename_i hlt
        split at h
        · cases h
        · rename_i fontFace fontInfo1 events hld
          split at h
          · rename_i hlen
            exact ih _ _ _ _ _ (hstep _ _ _ _ _ _ _ hP hn hlt hld hlen) h
          · cases h
      · rename_i hlt
        injection h with h
        injection h with h1 h2
        subst h1 h2
        exact ⟨i, numFaces, hP, hn, hlt⟩

/-- The iteration bound that `ProcessFont` passes to its loop is never reached:
one more iteration allowed gives the same run. -/
theorem loopVia_steps_enough (opn : Nat → Except Err Face) (fontSize : Int) (fuel : Nat) :
    ∀ (steps i : Nat) (font : Font) (fontInfo : FontInfo),
      i ≤ font.Faces.length → font.Faces.length + 1 ≤ steps + i →
      loopVia opn fontSize fuel (steps + 1) i font fontInfo
        = loopVia opn fontSize fuel steps i font fontInfo := by
  intro steps
  induction steps with
  | zero => intro i font fontInfo h1 h2; omega
  | succ n ih =>
    intro i font fontInfo h1 h2
    rw [loopVia, loopVia]
    cases fontInfo.NumFaces with
    | none => rfl
    | some numFaces =>
      simp only []
      split
      · split
        · rfl
        · rename_i fontFace fontInfo1 events hld
          split
          · rename_i hlen
            rw [ih (i + 1) _ fontInfo1 (by simpa using hlen) (by simp only [List.length_set]; omega)]
          · rfl
      · rfl

/-- More iterations than the font has slots give the same run of the loop of
`ProcessFont`. -/
theorem loopVia_steps_extra (opn : Nat → Except Err Face) (fontSize : Int) (fuel : Nat)
    (font : Font) (fontInfo : FontInfo) (hlen : 1 ≤ font.Faces.length) (extra : Nat) :
    loopVia opn fontSize fuel (font.Faces.length + extra) 1 font fontInfo
      = loopVia opn fontSize fuel font.Faces.length 1 font fontInfo := by
  induction extra with
  | zero => rfl
  | succ n ih =>
    rw [← ih]
    exact loopVia_steps_enough opn fontSize fuel (font.Faces.length + n) 1 font fontInfo hlen
      (by omega)

/-- The font made by a returning `CreateFont`. -/
theorem createFont_ok {firstFace : FontFace} {fontSize : Int} {fontInfo : FontInfo} {font : Font}
    (h : CreateFont firstFace fontSize fontInfo = .ok font) :
    ∃ numFaces : Int, fontInfo.NumFaces = some numFaces ∧ 1 ≤ numFaces ∧
      (font.Faces.length : Int) = numFaces ∧
      font.Faces = (List.replicate numFaces.toNat FontFace.zero).set 0 firstFace ∧
      font.Family = fontInfo.Family ∧ font.Size = fontSize := by
  unfold CreateFont at h
  split at h
  · cases h
  · rename_i numFaces hn
    split at h
    · cases h
    · rename_i hneg
      simp only [] at h
      split at h
      · rename_i hpos
        injection h with h
        subst h
        simp only [List.length_replicate] at hpos
        refine ⟨numFaces, hn, by omega, ?_, rfl, rfl, rfl⟩
        simp only [List.length_set, List.length_replicate]
        omega
      · cases h

/-- The steps of a returning `LoadFont`. -/
theorem loadFontVia_ok {opn : Nat → Except Err Face} {fontSize : Int} {fuel : Nat} {font : Font}
    (h : (loadFontVia opn fontSize fuel).1 = .ok font) :
    ∃ face0 firstFace fontInfo0 font0 fontInfoEnd,
      opn 0 = .ok face0 ∧
      ProcessFontFace face0 fontSize FontInfo.indeterminate fuel = .ok (firstFace, fontInfo0) ∧
      (loadFaceVia opn fontSize 0 FontInfo.indeterminate fuel).1 = .ok (firstFace, fontInfo0) ∧
      CreateFont firstFace fontSize fontInfo0 = .ok font0 ∧
      (processFontVia opn firstFace fontSize fontInfo0 fuel).1 = .ok (font, fontInfoEnd) ∧
      (loopVia opn fontSize fuel font0.Faces.length 1 font0 fontInfo0).1 = .ok (font, fontInfoEnd) := by
  unfold loadFontVia at h
  split at h
  · cases h
  · rename_i firstFace fontInfo0 events hld
    obtain ⟨face0, hopen, hpff, -⟩ := loadFaceVia_ok hld
    simp only [] at h
    cases hp : (processFontVia opn firstFace fontSize fontInfo0 fuel).1 with
    | error e => rw [hp] at h; cases h
    | ok r =>
      obtain ⟨font', fontInfoEnd⟩ := r
      rw [hp] at h
      injection h with h
      simp only [] at h
      subst h
      have hp' := hp
      unfold processFontVia at hp'
      split at hp'
      · cases hp'
      · rename_i font0 hc
        exact ⟨face0, firstFace, fontInfo0, font0, fontInfoEnd, hopen, hpff, by rw [hld], hc, hp, hp'⟩

/-- The loop keeps the number of slots. -/
theorem loopVia_length {opn : Nat → Except Err Face} {fontSize : Int} {fuel steps i : Nat}
    {font font' : Font} {fontInfo fontInfo' : FontInfo}
    (h : (loopVia opn fontSize fuel steps i font fontInfo).1 = .ok (font', fontInfo')) :
    font'.Faces.length = font.Faces.length := by
  obtain ⟨k, n, hP, -, -⟩ := loopVia_ok_inv (fun _ f _ => f.Faces.length = font.Faces.length)
    (by intro i f fi ff fi' ev n hP _ _ _ _; simpa using hP) steps i font fontInfo font' fontInfo' rfl h
  exact hP

/-- When no face opened at an index from 1 on reports index 0, the loop returns
the font info it was given. -/
theorem loopVia_fontInfo_fixed {opn : Nat → Except Err Face} {fontSize : Int} {fuel steps i : Nat}
    {font font' : Font} {fontInfo fontInfo' : FontInfo} (hi : 1 ≤ i)
    (hidx : ∀ j face, 1 ≤ j → opn j = .ok face → face.face_index ≠ 0)
    (h : (loopVia opn fontSize fuel steps i font fontInfo).1 = .ok (font', fontInfo')) :
    fontInfo' = fontInfo := by
  obtain ⟨k, n, ⟨hfi, -⟩, -, -⟩ := loopVia_ok_inv
    (fun j _ fi => fi = fontInfo ∧ 1 ≤ j)
    (by
      intro j f fi ff fi' ev m ⟨hfi, hj1⟩ _ _ hld _
      obtain ⟨face, hopen, hpff, -⟩ := loadFaceVia_ok hld
      obtain ⟨hfill, -, -⟩ := processFontFace_ok hpff
      exact ⟨by rw [hfill, fillFontInfo_of_ne _ _ (hidx j face hj1 hopen), hfi], by omega⟩)
    steps i font fontInfo font' fontInfo' ⟨rfl, hi⟩ h
  exact hfi

/-- On an engine that reports the index it was asked for, a loaded face carries
that index and a face after the first leaves the font info as it was. -/
theorem loadFaceVia_ok_faithful {opn : Nat → Except Err Face} (hf : IndexFaithful opn)
    {fontSize : Int} {i : Nat} {fontInfo : FontInfo} {fuel : Nat} {fontFace : FontFace}
    {fontInfo' : FontInfo} {events : List Event}
    (h : loadFaceVia opn fontSize i fontInfo fuel = (.ok (fontFace, fontInfo'), events)) :
    fontFace.FaceIndex = (i : Int) ∧ (1 ≤ i → fontInfo' = fontInfo) := by
  obtain ⟨face, hopen, hpff, -⟩ := loadFaceVia_ok h
  obtain ⟨hfi, hidx, -⟩ := processFontFace_ok hpff
  have hface := hf i face hopen
  refine ⟨by rw [hidx, hface], fun hi => ?_⟩
  rw [hfi]
  exact fillFontInfo_of_ne _ _ (by rw [hface]; omega)

/-! ## Lemmas on the engine events -/

/-- Bracketed events of two lists of indices, one after the other. -/
theorem bracket_append (xs ys : List Nat) : bracket (xs ++ ys) = bracket xs ++ bracket ys := by
  induction xs with
  | nil => rfl
  | cons x xs ih => simp [bracket, ih]

/-- Events of `LoadFontFace`: none when the open fails, open and close otherwise. -/
theorem loadFaceVia_events (opn : Nat → Except Err Face) (fontSize : Int) (i : Nat)
    (fontInfo : FontInfo) (fuel : Nat) :
    (loadFaceVia opn fontSize i fontInfo fuel).2 =
      match opn i with
      | .ok _ => [Event.newFace i, Event.doneFace i]
      | .error _ => [] := by
  unfold loadFaceVia
  cases opn i <;> rfl

/-- Events of `LoadFontFace`, as a bracketed list. -/
theorem loadFaceVia_events_cases (opn : Nat → Except Err Face) (fontSize : Int) (i : Nat)
    (fontInfo : FontInfo) (fuel : Nat) :
    (loadFaceVia opn fontSize i fontInfo fuel).2 = [] ∨
      (loadFaceVia opn fontSize i fontInfo fuel).2 = bracket [i] := by
  rw [loadFaceVia_events]
  cases opn i
  · exact Or.inl rfl
  · exact Or.inr rfl

/-- Events of the face loop from index `i`: the faces `i`, `i + 1`, ... bracketed. -/
theorem loopVia_events (opn : Nat → Except Err Face) (fontSize : Int) (fuel : Nat) :
    ∀ (steps i : Nat) (font : Font) (fontInfo : FontInfo),
      ∃ m, (loopVia opn fontSize fuel steps i font fontInfo).2 = bracket (List.range' i m) := by
  intro steps
  induction steps with
  | zero =>
    intro i font fontInfo
    refine ⟨0, ?_⟩
    simp only [loopVia]
    split
    · rfl
    · split <;> rfl
  | succ n ih =>
    intro i font fontInfo
    simp only [loopVia]
    split
    · exact ⟨0, rfl⟩
    · split
      · split
        · rename_i e events hld
          have hev := loadFaceVia_events_cases opn fontSize i fontInfo fuel
          rw [hld] at hev
          rcases hev with hev | hev
          · exact ⟨0, hev⟩
          · exact ⟨1, hev⟩
        · rename_i fontFace fontInfo1 events hld
          obtain ⟨-, -, -, hev⟩ := loadFaceVia_ok hld
          split
          · obtain ⟨m, hm⟩ := ih (i + 1) { font with Faces := font.Faces.set i fontFace } fontInfo1
            refine ⟨m + 1, ?_⟩
            simp only [hm, hev, List.range'_succ, bracket]
            rfl
          · exact ⟨1, by rw [hev]; rfl⟩
      · exact ⟨0, rfl⟩

/-- Events of `LoadFont`: the faces 0, 1, ... bracketed. -/
theorem loadFontVia_events (opn : Nat → Except Err Face) (fontSize : Int) (fuel : Nat) :
    ∃ m, (loadFontVia opn fontSize fuel).2 = bracket (List.range m) := by
  unfold loadFontVia
  split
  · rename_i e events hld
    have hev := loadFaceVia_events_cases opn fontSize 0 FontInfo.indeterminate fuel
    rw [hld] at hev
    rcases hev with hev | hev
    · exact ⟨0, hev⟩
    · exact ⟨1, hev⟩
  · rename_i firstFace fontInfo0 events hld
    obtain ⟨-, -, -, hev⟩ := loadFaceVia_ok hld
    simp only []
    unfold processFontVia
    split
    · exact ⟨1, by rw [hev]; rfl⟩
    · rename_i font0 _
      obtain ⟨m, hm⟩ := loopVia_events opn fontSize fuel font0.Faces.length 1 font0 fontInfo0
      refine ⟨m + 1, ?_⟩
      rw [hm, hev, List.range_eq_range', List.range'_succ]
      rfl

/-- No face is open after bracketed events. -/
theorem openFaces_bracket (ids : List Nat) : openFaces (bracket ids) = [] := by
  induction ids with
  | nil => rfl
  | cons i rest ih =>
    simp only [openFaces, bracket, List.foldl_cons, openFaces.step, List.nil_append] at ih ⊢
    simpa using ih

/-- At most one face is open after any prefix of bracketed events. -/
theorem openFaces_take_bracket (ids : List Nat) :
    ∀ k, (openFaces ((bracket ids).take k)).length ≤ 1 := by
  induction ids with
  | nil => intro k; simp [bracket, openFaces]
  | cons i rest ih =>
    intro k
    match k with
    | 0 => simp [openFaces]
    | 1 => simp [bracket, openFaces, openFaces.step]
    | k + 2 =>
      have h := ih k
      simp only [openFaces, bracket, List.take_succ_cons, List.foldl_cons, openFaces.step,
        List.nil_append] at h ⊢
      simpa using h

/-! ## Lemmas on runs from the same open results -/

/-- A result is the same outcome as itself. -/
theorem sameOutcome_refl {α : Type} (r : Except Err α) : sameOutcome r r := by
  cases r <;> simp [sameOutcome]

/-- A run agrees with itself. -/
theorem agree_refl {α : Type} (p : Except Err α × List Event) : agree p p :=
  ⟨rfl, sameOutcome_refl _⟩

/-- Two failures after the same events agree. -/
theorem agree_of_errors {α : Type} {e₁ e₂ : Err} (events : List Event)
    (h₁ : e₁ ≠ Err.outOfFuel) (h₂ : e₂ ≠ Err.outOfFuel) :
    agree ((.error e₁, events) : Except Err α × List Event) (.error e₂, events) :=
  ⟨rfl, by simp [sameOutcome, h₁, h₂]⟩

/-- A run that agrees with a returning run is that run. -/
theorem agree_ok_left {α : Type} {x : α} {events : List Event} {q : Except Err α × List Event}
    (h : agree (.ok x, events) q) : q = (.ok x, events) := by
  obtain ⟨q1, q2⟩ := q
  obtain ⟨h2, h1⟩ := h
  simp only [] at h2 h1
  cases q1 with
  | error e => simp [sameOutcome] at h1
  | ok y =>
    simp only [sameOutcome] at h1
    rw [h1, h2]

/-- A run that agrees with a failing run fails after the same events. -/
theorem agree_error_left {α : Type} {e : Err} {events : List Event} {q : Except Err α × List Event}
    (h : agree (.error e, events) q) :
    ∃ e', q = (.error e', events) ∧ (e = Err.outOfFuel ↔ e' = Err.outOfFuel) := by
  obtain ⟨q1, q2⟩ := q
  obtain ⟨h2, h1⟩ := h
  simp only [] at h2 h1
  cases q1 with
  | ok y => simp [sameOutcome] at h1
  | error e' =>
    simp only [sameOutcome] at h1
    exact ⟨e', by rw [h2], h1⟩

/-- Open steps with the same results give agreeing runs of `LoadFontFace`. -/
theorem loadFaceVia_agree {o₁ o₂ : Nat → Except Err Face}
    (h : ∀ i, (o₁ i).toOption = (o₂ i).toOption)
    (h₁ : ∀ i, o₁ i ≠ .error Err.outOfFuel) (h₂ : ∀ i, o₂ i ≠ .error Err.outOfFuel)
    (fontSize : Int) (i : Nat) (fontInfo : FontInfo) (fuel : Nat) :
    agree (loadFaceVia o₁ fontSize i fontInfo fuel) (loadFaceVia o₂ fontSize i fontInfo fuel) := by
  have hi := h i
  have h₁i := h₁ i
  have h₂i := h₂ i
  unfold loadFaceVia
  cases hx : o₁ i with
  | error e₁ =>
    cases hy : o₂ i with
    | error e₂ =>
      rw [hx] at h₁i; rw [hy] at h₂i
      exact agree_of_errors [] (fun hh => h₁i (by rw [hh])) (fun hh => h₂i (by rw [hh]))
    | ok f₂ => rw [hx, hy] at hi; cases hi
  | ok f₁ =>
    cases hy : o₂ i with
    | error e₂ => rw [hx, hy] at hi; cases hi
    | ok f₂ =>
      rw [hx, hy] at hi
      simp only [Except.toOption, Option.some.injEq] at hi
      subst hi
      exact agree_refl _

/-- Open steps with the same results give agreeing runs of the face loop. -/
theorem loopVia_agree {o₁ o₂ : Nat → Except Err Face}
    (h : ∀ i, (o₁ i).toOption = (o₂ i).toOption)
    (h₁ : ∀ i, o₁ i ≠ .error Err.outOfFuel) (h₂ : ∀ i, o₂ i ≠ .error Err.outOfFuel)
    (fontSize : Int) (fuel : Nat) :
    ∀ (steps i : Nat) (font : Font) (fontInfo : FontInfo),
      agree (loopVia o₁ fontSize fuel steps i font fontInfo)
        (loopVia o₂ fontSize fuel steps i font fontInfo) := by
  intro steps
  induction steps with
  | zero => intro i font fontInfo; exact agree_refl _
  | succ n ih =>
    intro i font fontInfo
    have hld := loadFaceVia_agree h h₁ h₂ fontSize i fontInfo fuel
    simp only [loopVia]
    cases hn : fontInfo.NumFaces with
    | none => exact agree_refl _
    | some numFaces =>
      simp only []
      by_cases hlt : (i : Int) < numFaces
      · simp only [if_pos hlt]
        cases hx : loadFaceVia o₁ fontSize i fontInfo fuel with
        | mk r events =>
          rw [hx] at hld
          cases r with
          | error e =>
            obtain ⟨e', hq, hiff⟩ := agree_error_left hld
            rw [hq]
            exact ⟨rfl, by simpa [sameOutcome] using hiff⟩
          | ok v =>
            rw [agree_ok_left hld]
            obtain ⟨fontFace, fontInfo1⟩ := v
            simp only []
            by_cases hlen : i < font.Faces.length
            · simp only [if_pos hlen]
              obtain ⟨hev, hres⟩ := ih (i + 1) { font with Faces := font.Faces.set i fontFace } fontInfo1
              exact ⟨by simp only [hev], hres⟩
            · simp only [if_neg hlen]
              exact agree_refl _
      · simp only [if_neg hlt]
        exact agree_refl _

/-- Open steps with the same results give agreeing runs of `LoadFont`. -/
theorem loadFontVia_agree {o₁ o₂ : Nat → Except Err Face}
    (h : ∀ i, (o₁ i).toOption = (o₂ i).toOption)
    (h₁ : ∀ i, o₁ i ≠ .error Err.outOfFuel) (h₂ : ∀ i, o₂ i ≠ .error Err.outOfFuel)
    (fontSize : Int) (fuel : Nat) :
    agree (loadFontVia o₁ fontSize fuel) (loadFontVia o₂ fontSize fuel) := by
  have hld := loadFaceVia_agree h h₁ h₂ fontSize 0 FontInfo.indeterminate fuel
  unfold loadFontVia
  cases hx : loadFaceVia o₁ fontSize 0 FontInfo.indeterminate fuel with
  | mk r events =>
    rw [hx] at hld
    cases r with
    | error e =>
      obtain ⟨e', hq, hiff⟩ := agree_error_left hld
      rw [hq]
      exact ⟨rfl, by simpa [sameOutcome] using hiff⟩
    | ok v =>
      rw [agree_ok_left hld]
      obtain ⟨firstFace, fontInfo0⟩ := v
      simp only []
      have hp : agree (processFontVia o₁ firstFace fontSize fontInfo0 fuel)
          (processFontVia o₂ firstFace fontSize fontInfo0 fuel) := by
        unfold processFontVia
        cases CreateFont firstFace fontSize fontInfo0 with
        | error e => exact agree_refl _
        | ok font0 => exact loopVia_agree h h₁ h₂ fontSize fuel _ _ _ _
      obtain ⟨hev, hres⟩ := hp
      refine ⟨by simp only [hev], ?_⟩
      simp only []
      cases ha : (processFontVia o₁ firstFace fontSize fontInfo0 fuel).1 with
      | error e =>
        cases hb : (processFontVia o₂ firstFace fontSize fontInfo0 fuel).1 with
        | error e' =>
          rw [ha, hb] at hres
          simpa [sameOutcome, Except.map] using hres
        | ok y => rw [ha, hb] at hres; simp [sameOutcome] at hres
      | ok x =>
        cases hb : (processFontVia o₂ firstFace fontSize fontInfo0 fuel).1 with
        | error e' => rw [ha, hb] at hres; simp [sameOutcome] at hres
        | ok y =>
          rw [ha, hb] at hres
          simp only [sameOutcome] at hres
          subst hres
          exact sameOutcome_refl _

/-- The open step on a file name always finishes. -/
theorem openFile_ne_outOfFuel (engine : Engine) (fontFile : String) (i : Nat) :
    openFile engine fontFile i ≠ .error Err.outOfFuel := by
  unfold openFile
  split
  · rename_i e he
    unfold StringToCpp at he
    simp only [] at he
    split at he
    · cases he
    · injection he with he
      subst he
      simp
  · split <;> simp

/-- The open step on a byte array always finishes. -/
theorem openData_ne_outOfFuel (engine : Engine) (data : List Nat) (i : Nat) :
    openData engine data i ≠ .error Err.outOfFuel := by
  unfold openData
  split
  · split <;> simp
  · simp

/-- An empty file name never reaches the engine: `StringToCpp` throws. -/
theorem loadFontFile_empty (engine : Engine) (fontSize : Int) (fuel : Nat) :
    LoadFontFile engine "" fontSize fuel = (.error Err.indexOutOfRange, []) := by
  rfl

/-- An empty byte array never reaches the engine: `&data[0]` throws. -/
theorem loadFontData_empty (engine : Engine) (fontSize : Int) (fuel : Nat) :
    LoadFontData engine [] fontSize fuel = (.error Err.indexOutOfRange, []) := by
  rfl

/-! ## Facts about the example engines -/

/-- The example resource reports the index of each face it opens. -/
theorem demoEngine_faithful : IndexFaithful (openFace demoEngine (.data [1])) := by
  intro i face h
  simp only [openFace, openData, demoEngine, List.length_singleton, Nat.lt_one_iff, if_true] at h
  split at h
  · cases h
  · rename_i face' hface
    injection h with h
    subst h
    split at hface
    · rename_i hi
      injection hface with hface
      subst hface hi
      rfl
    · split at hface
      · rename_i hi
        injection hface with hface
        subst hface hi
        rfl
      · cases hface

/-- The bytes of the example file name. -/
theorem stringToCpp_demo :
    StringToCpp "demo.ttf" = .ok [100, 101, 109, 111, 46, 116, 116, 102] := by rfl

/-- The example resource opens the same faces by file name and by byte array. -/
theorem demoEngine_same_open (i : Nat) :
    (openFile demoEngine "demo.ttf" i).toOption = (openData demoEngine [1] i).toOption := by
  simp only [openFile, stringToCpp_demo, openData, demoEngine, List.length_singleton,
    Nat.lt_one_iff, if_true]

/-! ## C1: number of faces -/

/-- C1: whenever `LoadFont` succeeds, the number of faces of the returned font is
`max 1 n`, where `n` is the face count the engine declares on the face it opens
at index 0; a declared count below 1 gives exactly one face. -/
theorem loadFont_faces_length (engine : Engine) (src : Source) (fontSize : Int) (fuel : Nat)
    (font : Font) (face0 : Face)
    (hload : (LoadFont engine src fontSize fuel).1 = .ok font)
    (hopen : openFace engine src 0 = .ok face0) :
    (font.Faces.length : Int) = max 1 face0.num_faces := by
  rw [loadFont_eq_via] at hload
  obtain ⟨face0', firstFace, fontInfo0, font0, fontInfoEnd, ho, hpff, -, hc, -, hloop⟩ := loadFontVia_ok hload
  rw [hopen] at ho
  injection ho with ho
  subst ho
  obtain ⟨n, hn, h1, hlen, -⟩ := createFont_ok hc
  rw [loopVia_length hloop, hlen]
  obtain ⟨hfi, -, -⟩ := processFontFace_ok hpff
  rw [hfi] at hn
  unfold ProcessFontFace.fillFontInfo at hn
  split at hn
  · simp only [Option.some.injEq] at hn
    rw [← hn]
    split <;> omega
  · cases hn

/-- Witness of C1: a face count of 0 declared on face 0 gives a font with one face. -/
theorem loadFont_faces_length_witness :
    ∃ font, (LoadFont zeroCountEngine (.data [1]) 16 5).1 = .ok font ∧
      openFace zeroCountEngine (.data [1]) 0 = .ok (demoFace 0 0) ∧
      (font.Faces.length : Int) = max 1 (demoFace 0 0).num_faces ∧ font.Faces.length = 1 := by
  obtain ⟨font, hf⟩ : ∃ font, (LoadFont zeroCountEngine (.data [1]) 16 5).1 = .ok font := ⟨_, rfl⟩
  have h := loadFont_faces_length zeroCountEngine (.data [1]) 16 5 font (demoFace 0 0) hf rfl
  refine ⟨font, hf, rfl, h, ?_⟩
  have h0 : (demoFace 0 0).num_faces = 0 := rfl
  rw [h0] at h
  have : ((font.Faces.length : Nat) : Int) = 1 := by rw [h]; rfl
  exact_mod_cast this

/-! ## C2: glyph codes and render failures -/

/-- C2: the character codes of the glyphs returned by `ProcessFontFace` are the
engine's enumeration (first code, then the code after each one, until glyph index
0) without the codes whose render call failed, in the same order.  Whenever the
enumeration ends and every rendered bitmap can be allocated, `ProcessFontFace`
returns, whichever render calls fail: a render failure raises no error. -/
theorem processFontFace_glyph_codes (face : Face) (fontSize : Int) (fontInfo : FontInfo) (fuel : Nat) :
    (∀ fontFace fontInfo', ProcessFontFace face fontSize fontInfo fuel = .ok (fontFace, fontInfo') →
      ∃ codes, face.charCodes fuel = some codes ∧
        fontFace.Glyphs.map Glyph.CharCode
          = codes.filter (fun c => (face.loadChar fontSize c).isSome)) ∧
    (∀ codes, face.charCodes fuel = some codes →
      (∀ c ∈ codes, ∀ slot, face.loadChar fontSize c = some slot → slot.allocatable) →
      ∃ fontFace fontInfo', ProcessFontFace face fontSize fontInfo fuel = .ok (fontFace, fontInfo') ∧
        fontFace.Glyphs.map Glyph.CharCode
          = codes.filter (fun c => (face.loadChar fontSize c).isSome)) := by
  refine ⟨fun _ _ h => processFontFace_codes_of_ok h, ?_⟩
  intro codes hcodes halloc
  obtain ⟨glyphs, hg⟩ := processFontFace_loop_total face fontSize fuel _ _ [] codes hcodes halloc
  have hp : ProcessFontFace face fontSize fontInfo fuel
      = .ok ({ FaceIndex := face.face_index
               Bold := decide (Int.land face.style_flags FT_STYLE_FLAG_BOLD ≠ 0)
               Italic := decide (Int.land face.style_flags FT_STYLE_FLAG_ITALIC ≠ 0)
               Glyphs := glyphs }, ProcessFontFace.fillFontInfo face fontSize fontInfo) := by
    unfold ProcessFontFace
    simp only [hg]
  refine ⟨_, _, hp, ?_⟩
  obtain ⟨codes', hc', hmap⟩ := processFontFace_codes_of_ok hp
  rw [hcodes] at hc'
  injection hc' with hc'
  rw [hc']
  exact hmap

/-- Witness of C2: five enumerated codes of which code 67 fails to render give
the four other codes, in order. -/
theorem processFontFace_glyph_codes_witness :
    (demoFace 0 2).charCodes 5 = some [65, 66, 67, 68, 69] ∧
      (demoFace 0 2).loadChar 16 67 = none ∧
      ∃ fontFace fontInfo',
        ProcessFontFace (demoFace 0 2) 16 FontInfo.indeterminate 5 = .ok (fontFace, fontInfo') ∧
        fontFace.Glyphs.map Glyph.CharCode = [65, 66, 68, 69] := by
  refine ⟨by decide, rfl, ?_⟩
  obtain ⟨fontFace, fontInfo', h, hcodes⟩ :=
    (processFontFace_glyph_codes (demoFace 0 2) 16 FontInfo.indeterminate 5).2
      [65, 66, 67, 68, 69] (by decide) (by
        intro c hc slot hs
        simp only [List.mem_cons, List.mem_singleton, List.not_mem_nil, or_false] at hc
        rcases hc with rfl | rfl | rfl | rfl | rfl <;>
          simp [demoFace] at hs <;> subst hs <;>
          simp [GlyphSlot.allocatable, demoSlot, emptySlot, toInt32] <;> decide)
  exact ⟨fontFace, fontInfo', h, by rw [hcodes]; decide⟩

/-! ## C3: size of the image data -/

/-- C3, amended: every glyph of a font face returned by `ProcessFontFace`, and
every glyph of every face of a font returned by `LoadFont`, has
`ImageData.length` equal to the `Int32` product `Width * Height`, hence equal to
`Width * Height` whenever that product lies in the `Int32` range, and has an
empty `ImageData` when `Width` or `Height` is 0. -/
theorem glyph_image_size (engine : Engine) (src : Source) (fontSize : Int) (fuel : Nat) :
    (∀ face fontInfo fontFace fontInfo',
      ProcessFontFace face fontSize fontInfo fuel = .ok (fontFace, fontInfo') →
      ∀ glyph ∈ fontFace.Glyphs,
        (glyph.ImageData.length : Int) = mulInt32 glyph.Width glyph.Height ∧
        (-2147483648 ≤ glyph.Width * glyph.Height → glyph.Width * glyph.Height ≤ 2147483647 →
          (glyph.ImageData.length : Int) = glyph.Width * glyph.Height) ∧
        (glyph.Width = 0 ∨ glyph.Height = 0 → glyph.ImageData = [])) ∧
    (∀ font, (LoadFont engine src fontSize fuel).1 = .ok font →
      ∀ fontFace ∈ font.Faces, ∀ glyph ∈ fontFace.Glyphs,
        (glyph.ImageData.length : Int) = mulInt32 glyph.Width glyph.Height ∧
        (-2147483648 ≤ glyph.Width * glyph.Height → glyph.Width * glyph.Height ≤ 2147483647 →
          (glyph.ImageData.length : Int) = glyph.Width * glyph.Height) ∧
        (glyph.Width = 0 ∨ glyph.Height = 0 → glyph.ImageData = [])) := by
  refine ⟨fun _ _ _ _ h => processFontFace_glyphs_of_ok h, ?_⟩
  intro font hload
  rw [loadFont_eq_via] at hload
  obtain ⟨face0, firstFace, fontInfo0, font0, fontInfoEnd, -, hpff, -, hc, -, hloop⟩ :=
    loadFontVia_ok hload
  obtain ⟨n, -, -, -, hfaces, -⟩ := createFont_ok hc
  obtain ⟨k, n', hP, -, -⟩ := loopVia_ok_inv
    (fun _ f _ => ∀ fontFace ∈ f.Faces, ∀ glyph ∈ fontFace.Glyphs,
      (glyph.ImageData.length : Int) = mulInt32 glyph.Width glyph.Height ∧
      (-2147483648 ≤ glyph.Width * glyph.Height → glyph.Width * glyph.Height ≤ 2147483647 →
        (glyph.ImageData.length : Int) = glyph.Width * glyph.Height) ∧
      (glyph.Width = 0 ∨ glyph.Height = 0 → glyph.ImageData = []))
    (by
      intro i f fi ff fi' ev m hP _ _ hld _ fontFace hmem
      obtain ⟨face, -, hpff', -⟩ := loadFaceVia_ok hld
      rcases List.mem_or_eq_of_mem_set hmem with hmem | rfl
      · exact hP fontFace hmem
      · exact processFontFace_glyphs_of_ok hpff')
    font0.Faces.length 1 font0 fontInfo0 font fontInfoEnd
    (by
      intro fontFace hmem
      rw [hfaces] at hmem
      rcases List.mem_or_eq_of_mem_set hmem with hmem | rfl
      · rw [List.eq_of_mem_replicate hmem]
        intro glyph hg
        simp [FontFace.zero] at hg
      · exact processFontFace_glyphs_of_ok hpff)
    hloop
  exact hP

/-- Witness of C3: the glyphs of the example face, one of them without pixels. -/
theorem glyph_image_size_witness :
    ∃ fontFace fontInfo',
      ProcessFontFace (demoFace 0 2) 16 FontInfo.indeterminate 5 = .ok (fontFace, fontInfo') ∧
      fontFace.Glyphs.map (fun g => (g.Width, g.Height, g.ImageData.length))
        = [(2, 3, 6), (0, 0, 0), (2, 3, 6), (2, 3, 6)] ∧
      ∀ glyph ∈ fontFace.Glyphs,
        (glyph.ImageData.length : Int) = mulInt32 glyph.Width glyph.Height ∧
        (-2147483648 ≤ glyph.Width * glyph.Height → glyph.Width * glyph.Height ≤ 2147483647 →
          (glyph.ImageData.length : Int) = glyph.Width * glyph.Height) ∧
        (glyph.Width = 0 ∨ glyph.Height = 0 → glyph.ImageData = []) := by
  obtain ⟨r, hr⟩ : ∃ r, ProcessFontFace (demoFace 0 2) 16 FontInfo.indeterminate 5 = .ok r := ⟨_, rfl⟩
  obtain ⟨fontFace, fontInfo'⟩ := r
  refine ⟨fontFace, fontInfo', hr, ?_,
    (glyph_image_size demoEngine (.data [1]) 16 5).1 (demoFace 0 2) FontInfo.indeterminate
      fontFace fontInfo' hr⟩
  have h' : (ProcessFontFace (demoFace 0 2) 16 FontInfo.indeterminate 5).map
      (fun r => r.1.Glyphs.map (fun g => (g.Width, g.Height, g.ImageData.length)))
      = .ok [(2, 3, 6), (0, 0, 0), (2, 3, 6), (2, 3, 6)] := rfl
  rw [hr] at h'
  injection h'

/-- Counterexample to C3: the engine renders a bitmap of 65536 by 65536.  The
`Int32` product of the dimensions wraps to 0, so the glyph is returned with
`Width = Height = 65536` and an empty `ImageData`. -/
theorem glyph_image_size_counterexample :
    ∃ fontFace fontInfo',
      ProcessFontFace hugeFace 16 FontInfo.indeterminate 5 = .ok (fontFace, fontInfo') ∧
      fontFace.Glyphs.map (fun g => (g.Width, g.Height, g.ImageData.length))
        = [(65536, 65536, 0)] ∧
      ¬ ∀ glyph ∈ fontFace.Glyphs,
        (glyph.ImageData.length : Int) = glyph.Width * glyph.Height := by
  obtain ⟨r, hr⟩ : ∃ r, ProcessFontFace hugeFace 16 FontInfo.indeterminate 5 = .ok r := ⟨_, rfl⟩
  obtain ⟨fontFace, fontInfo'⟩ := r
  have h' : (ProcessFontFace hugeFace 16 FontInfo.indeterminate 5).map
      (fun r => r.1.Glyphs.map (fun g => (g.Width, g.Height, g.ImageData.length)))
      = .ok [(65536, 65536, 0)] := rfl
  rw [hr] at h'
  have hv : fontFace.Glyphs.map (fun g => (g.Width, g.Height, g.ImageData.length))
      = [(65536, 65536, 0)] := by injection h'
  refine ⟨fontFace, fontInfo', hr, hv, ?_⟩
  intro hall
  match hg : fontFace.Glyphs with
  | [] => rw [hg] at hv; simp at hv
  | glyph :: rest =>
    rw [hg] at hv
    simp only [List.map_cons, List.cons.injEq, Prod.mk.injEq] at hv
    obtain ⟨⟨hw, hh, hl⟩, -⟩ := hv
    have := hall glyph (by rw [hg]; exact List.mem_cons_self _ _)
    rw [hw, hh, hl] at this
    norm_num at this

/-! ## C4: face index of a slot -/

/-- C4, amended: when the engine reports on every face it opens the index it was
asked to open, every slot `i` of the faces of a font returned by `LoadFont` has
`FaceIndex` equal to `i`. -/
theorem loadFont_face_index (engine : Engine) (src : Source) (fontSize : Int) (fuel : Nat)
    (font : Font)
    (hfaithful : IndexFaithful (openFace engine src))
    (hload : (LoadFont engine src fontSize fuel).1 = .ok font) :
    ∀ (i : Nat) (hi : i < font.Faces.length), (font.Faces[i]).FaceIndex = (i : Int) := by
  rw [loadFont_eq_via] at hload
  obtain ⟨face0, firstFace, fontInfo0, font0, fontInfoEnd, ho, hpff, hld, hc, -, hloop⟩ :=
    loadFontVia_ok hload
  obtain ⟨n, hn, h1, hlen, hfaces, -⟩ := createFont_ok hc
  have hfirst : firstFace.FaceIndex = 0 := by
    obtain ⟨-, hidx, -⟩ := processFontFace_ok hpff
    rw [hidx, hfaithful 0 face0 ho]; rfl
  obtain ⟨k, n', ⟨hfi, hlen', hk1, hP⟩, hn', hk⟩ := loopVia_ok_inv
    (fun i f fi => fi = fontInfo0 ∧ f.Faces.length = font0.Faces.length ∧ 1 ≤ i ∧
      ∀ j ff, j < i → f.Faces[j]? = some ff → ff.FaceIndex = (j : Int))
    (by
      intro i f fi ff fi' ev m ⟨hfi, hl, hi1, hP⟩ _ _ hld' hlt
      obtain ⟨hidx, hsame⟩ := loadFaceVia_ok_faithful hfaithful hld'
      refine ⟨by rw [hsame hi1, hfi], by simpa using hl, by omega, ?_⟩
      intro j ff' hj hget
      simp only [List.getElem?_set] at hget
      split at hget
      · rename_i hij
        subst hij
        simp only [hlt, if_true, Option.some.injEq] at hget
        rw [← hget, hidx]
      · exact hP j ff' (by omega) hget)
    font0.Faces.length 1 font0 fontInfo0 font fontInfoEnd
    ⟨rfl, rfl, le_refl 1, by
      intro j ff hj hget
      have hj0 : j = 0 := by omega
      subst hj0
      rw [hfaces] at hget
      simp only [List.getElem?_set] at hget
      simp only [List.length_replicate, if_true] at hget
      split at hget
      · injection hget with hget
        rw [← hget, hfirst]; rfl
      · cases hget⟩
    hloop
  intro i hi
  apply hP i _ _ (List.getElem?_eq_getElem hi)
  rw [hfi, hn] at hn'
  injection hn' with hn'
  subst hn'
  rw [hlen'] at hi
  omega

/-- Witness of C4: a resource with two faces gives face indices 0 and 1. -/
theorem loadFont_face_index_witness :
    IndexFaithful (openFace demoEngine (.data [1])) ∧
      ∃ font, (LoadFont demoEngine (.data [1]) 16 5).1 = .ok font ∧
        font.Faces.length = 2 ∧
        ∀ (i : Nat) (hi : i < font.Faces.length), (font.Faces[i]).FaceIndex = (i : Int) := by
  obtain ⟨font, hf⟩ : ∃ font, (LoadFont demoEngine (.data [1]) 16 5).1 = .ok font := ⟨_, rfl⟩
  refine ⟨demoEngine_faithful, font, hf, ?_,
    loadFont_face_index demoEngine (.data [1]) 16 5 font demoEngine_faithful hf⟩
  have h' : (LoadFont demoEngine (.data [1]) 16 5).1.map (fun f => f.Faces.length) = .ok 2 := rfl
  rw [hf] at h'
  injection h'

/-- Counterexample to C4: the second face of the resource reports face index 5,
and slot 1 of the returned font carries face index 5. -/
theorem loadFont_face_index_counterexample :
    ∃ font, (LoadFont misreportEngine (.file "demo.ttf") 16 5).1 = .ok font ∧
      font.Faces.map FontFace.FaceIndex = [0, 5] ∧
      ¬ ∀ (i : Nat) (hi : i < font.Faces.length), (font.Faces[i]).FaceIndex = (i : Int) := by
  obtain ⟨font, hf⟩ : ∃ font, (LoadFont misreportEngine (.file "demo.ttf") 16 5).1 = .ok font :=
    ⟨_, rfl⟩
  have h' : (LoadFont misreportEngine (.file "demo.ttf") 16 5).1.map
      (fun f => f.Faces.map FontFace.FaceIndex) = .ok [0, 5] := rfl
  rw [hf] at h'
  have hidx : font.Faces.map FontFace.FaceIndex = [0, 5] := by injection h'
  refine ⟨font, hf, hidx, ?_⟩
  intro hall
  have hlen : font.Faces.length = 2 := by
    have := congrArg List.length hidx
    simpa using this
  have h1 := hall 1 (by omega)
  have h2 : (font.Faces.map FontFace.FaceIndex)[1]? = some 5 := by rw [hidx]; rfl
  rw [List.getElem?_map, List.getElem?_eq_getElem (by omega : 1 < font.Faces.length)] at h2
  simp only [Option.map_some', Option.some.injEq] at h2
  rw [h1] at h2
  omega

/-! ## C5: bounds of the font info -/

/-- C5, amended: the font info populated from a face that reports index 0 has
`NumFaces` at least 1 for every pixel size and every reported face count; its
`LineHeight` is at least 1 when the pixel size or the reported line height is at
least 1, and is the pixel size itself when the reported line height is below 1.
It is the font info that `ProcessFontFace` hands back. -/
theorem fillFontInfo_bounds (face : Face) (fontSize : Int) (fontInfo : FontInfo)
    (hfirst : face.face_index = 0) :
    ∃ numFaces lineHeight : Int,
      (ProcessFontFace.fillFontInfo face fontSize fontInfo).NumFaces = some numFaces ∧
      (ProcessFontFace.fillFontInfo face fontSize fontInfo).LineHeight = some lineHeight ∧
      1 ≤ numFaces ∧
      (1 ≤ fontSize ∨ 1 ≤ face.max_advance_height → 1 ≤ lineHeight) ∧
      (face.max_advance_height < 1 → lineHeight = fontSize) ∧
      ∀ fuel fontFace fontInfo', ProcessFontFace face fontSize fontInfo fuel = .ok (fontFace, fontInfo') →
        fontInfo' = ProcessFontFace.fillFontInfo face fontSize fontInfo := by
  refine ⟨if face.num_faces < 1 then 1 else face.num_faces,
    if face.max_advance_height < 1 then fontSize else face.max_advance_height,
    by simp only [ProcessFontFace.fillFontInfo, if_pos hfirst],
    by simp only [ProcessFontFace.fillFontInfo, if_pos hfirst], ?_, ?_, ?_, ?_⟩
  · split <;> omega
  · intro h
    split <;> omega
  · intro h
    rw [if_pos h]
  · intro fuel fontFace fontInfo' h
    exact (processFontFace_ok h).1

/-- Witness of C5: pixel size 16 on a face that reports no line height. -/
theorem fillFontInfo_bounds_witness :
    (demoFace 0 0).face_index = 0 ∧
      ProcessFontFace.fillFontInfo (demoFace 0 0) 16 FontInfo.indeterminate
        = { Family := "Demo", NumFaces := some 1, LineHeight := some 16 } ∧
      ∃ numFaces lineHeight : Int,
        (ProcessFontFace.fillFontInfo (demoFace 0 0) 16 FontInfo.indeterminate).NumFaces
          = some numFaces ∧
        (ProcessFontFace.fillFontInfo (demoFace 0 0) 16 FontInfo.indeterminate).LineHeight
          = some lineHeight ∧
        1 ≤ numFaces ∧ 1 ≤ lineHeight := by
  obtain ⟨numFaces, lineHeight, h1, h2, h3, h4, -, -⟩ :=
    fillFontInfo_bounds (demoFace 0 0) 16 FontInfo.indeterminate rfl
  exact ⟨rfl, rfl, numFaces, lineHeight, h1, h2, h3, h4 (Or.inl (by decide))⟩

/-- Counterexample to C5: with pixel size 0 and no line height reported by face
0, the populated `LineHeight` is 0. -/
theorem fillFontInfo_bounds_counterexample :
    (demoFace 0 2).face_index = 0 ∧ (demoFace 0 2).max_advance_height = 0 ∧
      (ProcessFontFace.fillFontInfo (demoFace 0 2) 0 FontInfo.indeterminate).LineHeight = some 0 ∧
      (ProcessFontFace (demoFace 0 2) 0 FontInfo.indeterminate 5).map (fun r => r.2)
        = .ok { Family := "Demo", NumFaces := some 2, LineHeight := some 0 } ∧
      ¬ ∃ lineHeight : Int,
        (ProcessFontFace.fillFontInfo (demoFace 0 2) 0 FontInfo.indeterminate).LineHeight
          = some lineHeight ∧ 1 ≤ lineHeight := by
  refine ⟨rfl, rfl, rfl, rfl, ?_⟩
  rintro ⟨lineHeight, h, hle⟩
  have h0 : (ProcessFontFace.fillFontInfo (demoFace 0 2) 0 FontInfo.indeterminate).LineHeight
      = some 0 := rfl
  rw [h0] at h
  injection h with h
  omega

/-! ## C6: a rejected face aborts the call -/

/-- C6, amended: when `LoadFont` returns a font, every face index from 0 to
`NumFaces - 1` was opened by the engine, `NumFaces` being the value of the font
info when the loop of `ProcessFont` ends, at least 1 and at most the number of
slots: a rejected open of a face in that range makes the call fail.  When no
face opened at an index from 1 on reports index 0, that value is the one fixed
by face 0 and the number of slots, so every face index below `Faces.length` was
opened by the engine. -/
theorem loadFont_all_faces_opened (engine : Engine) (src : Source) (fontSize : Int) (fuel : Nat)
    (font : Font) (hload : (LoadFont engine src fontSize fuel).1 = .ok font) :
    ∃ firstFace fontInfo0 fontInfoEnd numFaces,
      (LoadFontFace engine src fontSize 0 FontInfo.indeterminate fuel).1 = .ok (firstFace, fontInfo0) ∧
      (ProcessFont engine firstFace src fontSize fontInfo0 fuel).1 = .ok (font, fontInfoEnd) ∧
      fontInfoEnd.NumFaces = some numFaces ∧ 1 ≤ numFaces ∧ numFaces ≤ font.Faces.length ∧
      (∀ i : Nat, (i : Int) < numFaces → ∃ face, openFace engine src i = .ok face) ∧
      ((∀ i face, 1 ≤ i → openFace engine src i = .ok face → face.face_index ≠ 0) →
        fontInfoEnd = fontInfo0 ∧ numFaces = font.Faces.length ∧
        ∀ i : Nat, i < font.Faces.length → ∃ face, openFace engine src i = .ok face) := by
  rw [loadFont_eq_via] at hload
  obtain ⟨face0, firstFace, fontInfo0, font0, fontInfoEnd, ho, hpff, hld, hc, hproc, hloop⟩ :=
    loadFontVia_ok hload
  obtain ⟨n, hn, h1, hlen, -⟩ := createFont_ok hc
  obtain ⟨k, n', ⟨hk1, hkl, ⟨m, hm, hm1⟩, hP⟩, hn', hk⟩ := loopVia_ok_inv
    (fun i f fi => 1 ≤ i ∧ i ≤ f.Faces.length ∧ (∃ m : Int, fi.NumFaces = some m ∧ 1 ≤ m) ∧
      ∀ j, j < i → ∃ face, openFace engine src j = .ok face)
    (by
      intro i f fi ff fi' ev m ⟨hi1, hil, hnum, hP⟩ _ _ hld' hlt
      obtain ⟨face, hopen, hpff', -⟩ := loadFaceVia_ok hld'
      obtain ⟨hfill, -, -⟩ := processFontFace_ok hpff'
      refine ⟨by omega, by simpa using hlt, ?_, ?_⟩
      · rw [hfill]; exact fillFontInfo_numFaces _ _ _ hnum
      · intro j hj
        rcases Nat.lt_succ_iff_lt_or_eq.1 hj with hj | rfl
        · exact hP j hj
        · exact ⟨face, hopen⟩)
    font0.Faces.length 1 font0 fontInfo0 font fontInfoEnd
    ⟨le_refl 1, by omega, ⟨n, hn, h1⟩, by
      intro j hj
      have hj0 : j = 0 := by omega
      subst hj0
      exact ⟨face0, ho⟩⟩
    hloop
  rw [hm] at hn'
  injection hn' with hn'
  subst hn'
  refine ⟨firstFace, fontInfo0, fontInfoEnd, m, ?_, ?_, hm, hm1, by omega, ?_, ?_⟩
  · rw [loadFontFace_eq_via]; exact hld
  · rw [processFont_eq_via]; exact hproc
  · intro i hi
    exact hP i (by omega)
  · intro hidx
    have hfix := loopVia_fontInfo_fixed (le_refl 1) hidx hloop
    rw [hfix, hn] at hm
    injection hm with hm
    have hnum : m = font.Faces.length := by rw [loopVia_length hloop, ← hm, hlen]
    refine ⟨hfix, hnum, ?_⟩
    intro i hi
    exact hP i (by omega)

/-- Witness of C6: both faces of the example resource are opened. -/
theorem loadFont_all_faces_opened_witness :
    ∃ font, (LoadFont demoEngine (.data [1]) 16 5).1 = .ok font ∧ font.Faces.length = 2 ∧
      ∀ i : Nat, i < font.Faces.length → ∃ face, openFace demoEngine (.data [1]) i = .ok face := by
  obtain ⟨font, hf⟩ : ∃ font, (LoadFont demoEngine (.data [1]) 16 5).1 = .ok font := ⟨_, rfl⟩
  obtain ⟨firstFace, fontInfo0, fontInfoEnd, numFaces, -, -, -, -, -, -, hall⟩ :=
    loadFont_all_faces_opened demoEngine (.data [1]) 16 5 font hf
  have hlen : (LoadFont demoEngine (.data [1]) 16 5).1.map (fun f => f.Faces.length) = .ok 2 := rfl
  rw [hf] at hlen
  refine ⟨font, hf, by injection hlen, ?_⟩
  refine (hall ?_).2.2
  intro i face hi hopen
  rw [demoEngine_faithful i face hopen]
  omega

/-- Counterexample to C6: face 0 declares three faces, the face opened at index
1 reports face index 0 and two faces, and the engine rejects the open of face 2.
`LoadFont` returns a font of three slots whose third slot was never loaded. -/
theorem loadFont_all_faces_opened_counterexample :
    openFace repeatEngine (.file "demo.ttf") 2 = .error Err.loadFailed ∧
    ∃ font, (LoadFont repeatEngine (.file "demo.ttf") 16 5).1 = .ok font ∧
      font.Faces.length = 3 ∧ font.Faces[2]? = some FontFace.zero ∧
      ¬ ∀ i : Nat, i < font.Faces.length →
        ∃ face, openFace repeatEngine (.file "demo.ttf") i = .ok face := by
  have hrej : openFace repeatEngine (.file "demo.ttf") 2 = .error Err.loadFailed := rfl
  obtain ⟨font, hf⟩ : ∃ font, (LoadFont repeatEngine (.file "demo.ttf") 16 5).1 = .ok font :=
    ⟨_, rfl⟩
  have h' : (LoadFont repeatEngine (.file "demo.ttf") 16 5).1.map
      (fun f => (f.Faces.length, f.Faces[2]?)) = .ok (3, some FontFace.zero) := rfl
  rw [hf] at h'
  have h'' : (font.Faces.length, font.Faces[2]?) = (3, some FontFace.zero) := by injection h'
  simp only [Prod.mk.injEq] at h''
  refine ⟨hrej, font, hf, h''.1, h''.2, ?_⟩
  intro hall
  obtain ⟨face, hface⟩ := hall 2 (by omega)
  rw [hrej] at hface
  cases hface

/-! ## C7: the font info after face 0 -/

/-- C7, amended: loading a face for which the engine reports a non-zero face
index leaves the font info unchanged, whatever family name, face count and line
height that face reports; when this holds of every face opened at an index from
1 on, `ProcessFont` ends with the font info fixed by face 0. -/
theorem loadFontFace_keeps_fontInfo (engine : Engine) (src : Source) (fontSize : Int) (fuel : Nat) :
    (∀ (i : Nat) (fontInfo : FontInfo) (face : Face) (fontFace : FontFace) (fontInfo' : FontInfo),
      openFace engine src i = .ok face → face.face_index ≠ 0 →
      (LoadFontFace engine src fontSize i fontInfo fuel).1 = .ok (fontFace, fontInfo') →
      fontInfo' = fontInfo) ∧
    (∀ (firstFace : FontFace) (fontInfo : FontInfo) (font : Font) (fontInfoEnd : FontInfo),
      (∀ i face, 1 ≤ i → openFace engine src i = .ok face → face.face_index ≠ 0) →
      (ProcessFont engine firstFace src fontSize fontInfo fuel).1 = .ok (font, fontInfoEnd) →
      fontInfoEnd = fontInfo) := by
  constructor
  · intro i fontInfo face fontFace fontInfo' hopen hidx h
    rw [loadFontFace_eq_via] at h
    obtain ⟨face', hopen', hpff, -⟩ := loadFaceVia_ok (Prod.ext h rfl)
    rw [hopen] at hopen'
    injection hopen' with hopen'
    subst hopen'
    rw [(processFontFace_ok hpff).1]
    exact fillFontInfo_of_ne _ _ hidx
  · intro firstFace fontInfo font fontInfoEnd hidx h
    rw [processFont_eq_via] at h
    unfold processFontVia at h
    split at h
    · cases h
    · exact loopVia_fontInfo_fixed (le_refl 1) hidx h

/-- Witness of C7: loading face 1 of the example resource, which reports index 1. -/
theorem loadFontFace_keeps_fontInfo_witness :
    openFace demoEngine (.data [1]) 1 = .ok (demoFace 1 2) ∧ (demoFace 1 2).face_index ≠ 0 ∧
      ∃ fontFace fontInfo',
        (LoadFontFace demoEngine (.data [1]) 16 1
          { Family := "Demo", NumFaces := some 2, LineHeight := some 16 } 5).1
          = .ok (fontFace, fontInfo') ∧
        fontInfo' = { Family := "Demo", NumFaces := some 2, LineHeight := some 16 } := by
  obtain ⟨r, hr⟩ : ∃ r, (LoadFontFace demoEngine (.data [1]) 16 1
      { Family := "Demo", NumFaces := some 2, LineHeight := some 16 } 5).1 = .ok r := ⟨_, rfl⟩
  obtain ⟨fontFace, fontInfo'⟩ := r
  exact ⟨rfl, by decide, fontFace, fontInfo', hr,
    (loadFontFace_keeps_fontInfo demoEngine (.data [1]) 16 5).1 1 _ (demoFace 1 2) fontFace fontInfo'
      rfl (by decide) hr⟩

/-- Counterexample to C7: the face opened at index 1 reports face index 0.
Loading it replaces the font info fixed by face 0, the loop bound drops from 3
to 2, and the font is returned with its third slot never loaded. -/
theorem loadFontFace_keeps_fontInfo_counterexample :
    (∃ fontFace,
      (LoadFontFace repeatEngine (.file "demo.ttf") 16 1
        { Family := "Demo", NumFaces := some 3, LineHeight := some 16 } 5).1
        = .ok (fontFace, { Family := "Other", NumFaces := some 2, LineHeight := some 40 })) ∧
    (∃ font, (LoadFont repeatEngine (.file "demo.ttf") 16 5).1 = .ok font ∧
      font.Family = "Demo" ∧ font.Faces.length = 3 ∧ font.Faces[2]? = some FontFace.zero) ∧
    ¬ ∀ (i : Nat) (fontInfo : FontInfo) (fontFace : FontFace) (fontInfo' : FontInfo), 1 ≤ i →
      (LoadFontFace repeatEngine (.file "demo.ttf") 16 i fontInfo 5).1 = .ok (fontFace, fontInfo') →
      fontInfo' = fontInfo := by
  obtain ⟨r, hr⟩ : ∃ r, (LoadFontFace repeatEngine (.file "demo.ttf") 16 1
      { Family := "Demo", NumFaces := some 3, LineHeight := some 16 } 5).1 = .ok r := ⟨_, rfl⟩
  have hsnd : (LoadFontFace repeatEngine (.file "demo.ttf") 16 1
      { Family := "Demo", NumFaces := some 3, LineHeight := some 16 } 5).1.map Prod.snd
      = .ok { Family := "Other", NumFaces := some 2, LineHeight := some 40 } := rfl
  obtain ⟨fontFace, fontInfo'⟩ := r
  rw [hr] at hsnd
  have hfi : fontInfo' = { Family := "Other", NumFaces := some 2, LineHeight := some 40 } := by
    injection hsnd
  subst hfi
  refine ⟨⟨fontFace, hr⟩, ?_, ?_⟩
  · obtain ⟨font, hf⟩ : ∃ font, (LoadFont repeatEngine (.file "demo.ttf") 16 5).1 = .ok font :=
      ⟨_, rfl⟩
    have h' : (LoadFont repeatEngine (.file "demo.ttf") 16 5).1.map
        (fun f => (f.Family, f.Faces.length, f.Faces[2]?)) = .ok ("Demo", 3, some FontFace.zero) := rfl
    rw [hf] at h'
    have h'' : (font.Family, font.Faces.length, font.Faces[2]?) = ("Demo", 3, some FontFace.zero) := by
      injection h'
    simp only [Prod.mk.injEq] at h''
    exact ⟨font, hf, h''.1, h''.2.1, h''.2.2⟩
  · intro hall
    have := hall 1 _ fontFace _ (le_refl 1) hr
    simp at this

/-! ## C8: face handles are closed -/

/-- C8: `LoadFontFace` performs no engine event when the open fails and exactly
the open followed by the close of its handle otherwise, whether
`ProcessFontFace` returns or fails.  The events of a whole `LoadFont` call,
whatever its result, open the faces 0, 1, ... one after the other, each closed
before the next is opened: at most one face is open at any time and none is
open at the end. -/
theorem loadFont_faces_closed (engine : Engine) (src : Source) (fontSize : Int) (fuel : Nat) :
    (∀ (faceIndex : Nat) (fontInfo : FontInfo),
      (LoadFontFace engine src fontSize faceIndex fontInfo fuel).2 =
        match openFace engine src faceIndex with
        | .ok _ => [Event.newFace faceIndex, Event.doneFace faceIndex]
        | .error _ => []) ∧
    (∃ m, (LoadFont engine src fontSize fuel).2 = bracket (List.range m)) ∧
    openFaces (LoadFont engine src fontSize fuel).2 = [] ∧
    ∀ k, (openFaces ((LoadFont engine src fontSize fuel).2.take k)).length ≤ 1 := by
  obtain ⟨m, hm⟩ := loadFontVia_events (openFace engine src) fontSize fuel
  rw [← loadFont_eq_via] at hm
  refine ⟨?_, ⟨m, hm⟩, ?_, ?_⟩
  · intro faceIndex fontInfo
    rw [loadFontFace_eq_via]
    exact loadFaceVia_events _ _ _ _ _
  · rw [hm]; exact openFaces_bracket _
  · rw [hm]; exact openFaces_take_bracket _

/-! ## C9: distinct character codes -/

/-- C9: when the engine's enumeration of a face yields every code at most once,
no two glyphs of the font face returned by `ProcessFontFace` have the same
`CharCode`. -/
theorem processFontFace_codes_nodup (face : Face) (fontSize : Int) (fontInfo : FontInfo) (fuel : Nat)
    (codes : List Nat) (fontFace : FontFace) (fontInfo' : FontInfo)
    (hcodes : face.charCodes fuel = some codes) (hnodup : codes.Nodup)
    (h : ProcessFontFace face fontSize fontInfo fuel = .ok (fontFace, fontInfo')) :
    (fontFace.Glyphs.map Glyph.CharCode).Nodup := by
  obtain ⟨codes', hc', hmap⟩ := processFontFace_codes_of_ok h
  rw [hcodes] at hc'
  injection hc' with hc'
  rw [hmap, ← hc']
  exact hnodup.filter _

/-- Witness of C9: the five codes of the example face are distinct, and so are
the four codes of its glyphs. -/
theorem processFontFace_codes_nodup_witness :
    (demoFace 0 2).charCodes 5 = some [65, 66, 67, 68, 69] ∧ [65, 66, 67, 68, 69].Nodup ∧
      ∃ fontFace fontInfo',
        ProcessFontFace (demoFace 0 2) 16 FontInfo.indeterminate 5 = .ok (fontFace, fontInfo') ∧
        (fontFace.Glyphs.map Glyph.CharCode).Nodup := by
  obtain ⟨r, hr⟩ : ∃ r, ProcessFontFace (demoFace 0 2) 16 FontInfo.indeterminate 5 = .ok r := ⟨_, rfl⟩
  obtain ⟨fontFace, fontInfo'⟩ := r
  exact ⟨by decide, by decide, fontFace, fontInfo', hr,
    processFontFace_codes_nodup (demoFace 0 2) 16 FontInfo.indeterminate 5 [65, 66, 67, 68, 69]
      fontFace fontInfo' (by decide) (by decide) hr⟩

/-! ## C10: the two entry points -/

/-- C10: when the open step gives, for every face index, the same face from the
file name as from the byte array, or fails for both, `LoadFont` on the file name
and `LoadFont` on the byte array have the same outcome: both fail, or both do
not finish, or both return the same font; they also perform the same engine
events. -/
theorem loadFont_file_data_agree (engine : Engine) (fontFile : String) (data : List Nat)
    (fontSize : Int) (fuel : Nat)
    (hopen : ∀ i, (openFile engine fontFile i).toOption = (openData engine data i).toOption) :
    sameOutcome (LoadFontFile engine fontFile fontSize fuel).1 (LoadFontData engine data fontSize fuel).1 ∧
      (LoadFontFile engine fontFile fontSize fuel).2 = (LoadFontData engine data fontSize fuel).2 := by
  have h := loadFontVia_agree hopen (openFile_ne_outOfFuel engine fontFile)
    (openData_ne_outOfFuel engine data) fontSize fuel
  have hf := loadFont_eq_via engine (.file fontFile) fontSize fuel
  have hd := loadFont_eq_via engine (.data data) fontSize fuel
  simp only [LoadFont, openFace] at hf hd
  rw [hf, hd]
  exact ⟨h.2, h.1⟩

/-- Witness of C10: the example resource by file name and by byte array. -/
theorem loadFont_file_data_agree_witness :
    (∀ i, (openFile demoEngine "demo.ttf" i).toOption = (openData demoEngine [1] i).toOption) ∧
      (∃ font, (LoadFontFile demoEngine "demo.ttf" 16 5).1 = .ok font ∧
        (LoadFontData demoEngine [1] 16 5).1 = .ok font) ∧
      sameOutcome (LoadFontFile demoEngine "demo.ttf" 16 5).1 (LoadFontData demoEngine [1] 16 5).1 ∧
      (LoadFontFile demoEngine "demo.ttf" 16 5).2 = (LoadFontData demoEngine [1] 16 5).2 :=
  ⟨demoEngine_same_open, ⟨_, rfl, rfl⟩,
    loadFont_file_data_agree demoEngine "demo.ttf" [1] 16 5 demoEngine_same_open⟩

end SilkUI.FreeType
